import Mathlib

/-!
Verification of the Kropki Sudoku solver (repository `kropki-sudoku-solver`).

The development shallowly embeds the Python sources:
 * `src/utils/constants.py`  — the numeric constants;
 * `src/models/board.py`     — the `Board` data model (grid plus two dot
   matrices), its accessors and setters;
 * `src/utils/validators.py` — the constraint evaluator
   (`is_valid_sudoku_move`, `is_valid_dot_move`, `get_valid_values`);
 * `src/solver/solver.py`    — the `KropkiSolver` backtracking search with
   MRV + degree variable selection and optional forward checking;
 * `src/utils/io_handler.py` — the puzzle loader's validation pipeline
   (`validate_grid_line`, `validate_dot_line`, `verify_initial_board`,
   `load_puzzle`).

Modelling conventions.  Machine integers are `Nat`.  The 9x9 grid and the
dot matrices are total functions `Nat → Nat → Nat`; the program only ever
reads or writes indices below 9 (resp. 8), which the theorems track
explicitly.  Python methods that raise `ValueError` on out-of-range
positions or out-of-domain values are embedded in two layers: a total core
function giving the behaviour on arguments that pass the validation (the
only arguments the solver ever supplies — it calls the accessors with its
own in-range coordinates and with candidate values drawn from `1..9`), and,
for the functions whose error behaviour the specification discusses, a
checked version returning `Except String _` in which `.error` models a
raised `ValueError`.  Python's mutation of `self.grid` and of the two
counters is embedded by explicit state passing: `backtrack` takes and
returns the board and the solver (with its two counters), so "the board
after the call" is a first-class value.  Python's recursion needs no fuel;
here `backtrack` carries a fuel argument that the entry point `solve` sets
to the number of empty cells, which is an exact bound on the recursion
depth (every recursive call happens right after a nonzero value is written
into an empty cell), so the embedding computes exactly what the Python
does.
-/

/-- `GRID_SIZE` from `constants.py`. -/
def GRID_SIZE : Nat := 9

/-- `BLOCK_SIZE` from `constants.py`. -/
def BLOCK_SIZE : Nat := 3

/-- `MIN_VALUE` from `constants.py`. -/
def MIN_VALUE : Nat := 1

/-- `MAX_VALUE` from `constants.py`. -/
def MAX_VALUE : Nat := 9

/-- `NO_DOT` from `constants.py`. -/
def NO_DOT : Nat := 0

/-- `WHITE_DOT` from `constants.py`. -/
def WHITE_DOT : Nat := 1

/-- `BLACK_DOT` from `constants.py`. -/
def BLACK_DOT : Nat := 2

/-- `EMPTY_CELL` from `constants.py`. -/
def EMPTY_CELL : Nat := 0

/-- The `Board` class from `board.py`: a 9x9 grid of values in `{0..9}`
(0 = empty), a 9x8 matrix of horizontal dots (`horizontal_dots[r][c]`
relates cells `(r,c)` and `(r,c+1)`), and an 8x9 matrix of vertical dots
(`vertical_dots[r][c]` relates `(r,c)` and `(r+1,c)`).  Entries are total
functions; the program reads and writes only indices in range. -/
@[ext]
structure Board where
  grid : Nat → Nat → Nat
  horizontal_dots : Nat → Nat → Nat
  vertical_dots : Nat → Nat → Nat

/-- `Board.__init__`: the board constructed empty (all matrices zero). -/
def Board.empty : Board :=
  ⟨fun _ _ => 0, fun _ _ => 0, fun _ _ => 0⟩

/-- `Board.is_valid_position`. -/
def Board.is_valid_position (r c : Nat) : Bool :=
  decide (r < GRID_SIZE) && decide (c < GRID_SIZE)

/-- `Board.is_valid_value`: 0 (empty) or 1-9. -/
def Board.is_valid_value (v : Nat) : Bool :=
  decide (v = EMPTY_CELL) || (decide (MIN_VALUE ≤ v) && decide (v ≤ MAX_VALUE))

/-- Core of `Board.set_value`: the grid update performed after the
position/value validation succeeds (the solver and the loader only call it
with validated arguments). -/
def Board.setValue (b : Board) (r c v : Nat) : Board :=
  { b with grid := fun r' c' => if r' = r ∧ c' = c then v else b.grid r' c' }

/-- `Board.is_empty`: the cell holds `EMPTY_CELL`. -/
def Board.isEmpty (b : Board) (r c : Nat) : Bool :=
  decide (b.grid r c = EMPTY_CELL)

/-- Core of `Board.get_horizontal_dot` (the value returned once the
position validation succeeds): the stored dot for `c < 8`, `NO_DOT` at the
grid's outer edge. -/
def Board.hDotAt (b : Board) (r c : Nat) : Nat :=
  if c < GRID_SIZE - 1 then b.horizontal_dots r c else NO_DOT

/-- Core of `Board.get_vertical_dot`: the stored dot for `r < 8`, `NO_DOT`
at the grid's outer edge. -/
def Board.vDotAt (b : Board) (r c : Nat) : Nat :=
  if r < GRID_SIZE - 1 then b.vertical_dots r c else NO_DOT

/-- `Board.get_horizontal_dot` with its error behaviour: raises
(`.error`) iff the position is invalid; otherwise returns the stored dot,
or `NO_DOT` at the `c = 8` edge. -/
def Board.get_horizontal_dot (b : Board) (r c : Nat) : Except String Nat :=
  if Board.is_valid_position r c then .ok (b.hDotAt r c)
  else .error "Invalid position"

/-- `Board.get_vertical_dot` with its error behaviour. -/
def Board.get_vertical_dot (b : Board) (r c : Nat) : Except String Nat :=
  if Board.is_valid_position r c then .ok (b.vDotAt r c)
  else .error "Invalid position"

/-- Core of `Board.set_horizontal_dot`: after validation, writes the dot
when `c < 8` and does nothing at the edge. -/
def Board.setHDot (b : Board) (r c d : Nat) : Board :=
  if c < GRID_SIZE - 1 then
    { b with horizontal_dots := fun r' c' =>
        if r' = r ∧ c' = c then d else b.horizontal_dots r' c' }
  else b

/-- Core of `Board.set_vertical_dot`. -/
def Board.setVDot (b : Board) (r c d : Nat) : Board :=
  if r < GRID_SIZE - 1 then
    { b with vertical_dots := fun r' c' =>
        if r' = r ∧ c' = c then d else b.vertical_dots r' c' }
  else b

/-- `Board.set_horizontal_dot` with its error behaviour: validates the
position, then the dot value, then performs the (possibly edge no-op)
write. -/
def Board.set_horizontal_dot (b : Board) (r c d : Nat) : Except String Board :=
  if ¬ Board.is_valid_position r c then .error "Invalid position"
  else if ¬ (d = NO_DOT ∨ d = WHITE_DOT ∨ d = BLACK_DOT) then .error "Invalid dot value"
  else .ok (b.setHDot r c d)

/-- `Board.set_vertical_dot` with its error behaviour. -/
def Board.set_vertical_dot (b : Board) (r c d : Nat) : Except String Board :=
  if ¬ Board.is_valid_position r c then .error "Invalid position"
  else if ¬ (d = NO_DOT ∨ d = WHITE_DOT ∨ d = BLACK_DOT) then .error "Invalid dot value"
  else .ok (b.setVDot r c d)

/-- `Board.is_complete`: `EMPTY_CELL not in self.grid` — no empty cell
among the 81 entries. -/
def Board.is_complete (b : Board) : Bool :=
  decide (∀ r, r < GRID_SIZE → ∀ c, c < GRID_SIZE → b.grid r c ≠ EMPTY_CELL)

/-- `check_white_dot_constraint` from `validators.py`: empty cells satisfy
trivially; otherwise the two values differ by exactly 1. -/
def check_white_dot_constraint (v1 v2 : Nat) : Bool :=
  if v1 = EMPTY_CELL ∨ v2 = EMPTY_CELL then true
  else decide (((v1 : Int) - (v2 : Int)).natAbs = 1)

/-- `check_black_dot_constraint`: empty cells satisfy trivially; otherwise
one value is exactly double the other. -/
def check_black_dot_constraint (v1 v2 : Nat) : Bool :=
  if v1 = EMPTY_CELL ∨ v2 = EMPTY_CELL then true
  else decide (v1 = 2 * v2 ∨ v2 = 2 * v1)

/-- `check_no_dot_constraint`: empty cells satisfy trivially; otherwise the
pair must satisfy neither the white nor the black relation. -/
def check_no_dot_constraint (v1 v2 : Nat) : Bool :=
  if v1 = EMPTY_CELL ∨ v2 = EMPTY_CELL then true
  else !(check_white_dot_constraint v1 v2 || check_black_dot_constraint v1 v2)

/-- Core of `is_valid_sudoku_move` (validation of the position and of
`value ∈ {0..9}` is the caller's precondition, tracked by the theorems):
value 0 always passes, and a nonzero value passes iff no filled cell in
the same row, column or 3x3 block already holds it.  As in the source, the
scans include the target cell itself. -/
def is_valid_sudoku_move (b : Board) (row col v : Nat) : Bool :=
  if v = EMPTY_CELL then true
  else
    !(decide (∃ j, j < GRID_SIZE ∧ b.grid row j ≠ EMPTY_CELL ∧ b.grid row j = v)) &&
    !(decide (∃ i, i < GRID_SIZE ∧ b.grid i col ≠ EMPTY_CELL ∧ b.grid i col = v)) &&
    !(decide (∃ i, i < BLOCK_SIZE ∧ ∃ j, j < BLOCK_SIZE ∧
        b.grid (BLOCK_SIZE * (row / BLOCK_SIZE) + i) (BLOCK_SIZE * (col / BLOCK_SIZE) + j) ≠ EMPTY_CELL ∧
        b.grid (BLOCK_SIZE * (row / BLOCK_SIZE) + i) (BLOCK_SIZE * (col / BLOCK_SIZE) + j) = v))

/-- One neighbour check of `is_valid_dot_move`: given the dot `d` between
the candidate's cell and a filled neighbour, the three sequential `if`
statements of the source — white dots, black dots and no-dot each impose
their constraint; any other stored value imposes none. -/
def pairOk (d v n : Nat) : Bool :=
  (if d = WHITE_DOT then check_white_dot_constraint v n else true) &&
  (if d = BLACK_DOT then check_black_dot_constraint v n else true) &&
  (if d = NO_DOT then check_no_dot_constraint v n else true)

/-- Core of `is_valid_dot_move`: value 0 always passes; otherwise each of
the up-to-four orthogonal neighbours that holds a nonzero value is checked
against the dot linking the two cells. -/
def is_valid_dot_move (b : Board) (row col v : Nat) : Bool :=
  if v = EMPTY_CELL then true
  else
    (if 0 < col ∧ b.grid row (col - 1) ≠ EMPTY_CELL then
        pairOk (b.hDotAt row (col - 1)) v (b.grid row (col - 1)) else true) &&
    (if col < GRID_SIZE - 1 ∧ b.grid row (col + 1) ≠ EMPTY_CELL then
        pairOk (b.hDotAt row col) v (b.grid row (col + 1)) else true) &&
    (if 0 < row ∧ b.grid (row - 1) col ≠ EMPTY_CELL then
        pairOk (b.vDotAt (row - 1) col) v (b.grid (row - 1) col) else true) &&
    (if row < GRID_SIZE - 1 ∧ b.grid (row + 1) col ≠ EMPTY_CELL then
        pairOk (b.vDotAt row col) v (b.grid (row + 1) col) else true)

/-- Core of `get_valid_values`: the empty list for a non-empty cell, and
otherwise the set of digits `1..9` passing both the Sudoku check and the
dot check.  The Python function builds this as a `set`; the embedding uses
its canonical ascending enumeration (which is what `sorted(...)` later
produces from it). -/
def get_valid_values (b : Board) (row col : Nat) : List Nat :=
  if !(b.isEmpty row col) then []
  else (List.range' MIN_VALUE MAX_VALUE).filter
    (fun v => is_valid_sudoku_move b row col v && is_valid_dot_move b row col v)

/-- `get_valid_values` with its error behaviour: raises iff the position is
invalid. -/
def get_valid_values_checked (b : Board) (row col : Nat) : Except String (List Nat) :=
  if Board.is_valid_position row col then .ok (get_valid_values b row col)
  else .error "Invalid position"

/-- The `KropkiSolver` instance state from `solver.py`: the configuration
flag and the two search-statistics counters. -/
structure KropkiSolver where
  use_forward_checking : Bool
  assignments : Nat
  backtracks : Nat

/-- `KropkiSolver.__init__`: counters start at zero. -/
def KropkiSolver.make (forward_checking : Bool) : KropkiSolver :=
  ⟨forward_checking, 0, 0⟩

/-- `KropkiSolver.get_degree`: the number of other empty cells in the same
row, plus the same for the column and the block, plus one for each
orthogonally adjacent empty cell linked by a non-`NO_DOT` dot. -/
def get_degree (b : Board) (row col : Nat) : Nat :=
  ((List.range GRID_SIZE).countP (fun c => decide (c ≠ col) && b.isEmpty row c)) +
  ((List.range GRID_SIZE).countP (fun r => decide (r ≠ row) && b.isEmpty r col)) +
  ((List.range (BLOCK_SIZE * BLOCK_SIZE)).countP (fun k =>
      let r := BLOCK_SIZE * (row / BLOCK_SIZE) + k / BLOCK_SIZE
      let c := BLOCK_SIZE * (col / BLOCK_SIZE) + k % BLOCK_SIZE
      decide (r ≠ row ∨ c ≠ col) && b.isEmpty r c)) +
  ((if 0 < col && b.isEmpty row (col - 1) && decide (b.hDotAt row (col - 1) ≠ NO_DOT) then 1 else 0) +
   (if col < GRID_SIZE - 1 && b.isEmpty row (col + 1) && decide (b.hDotAt row col ≠ NO_DOT) then 1 else 0) +
   (if 0 < row && b.isEmpty (row - 1) col && decide (b.vDotAt (row - 1) col ≠ NO_DOT) then 1 else 0) +
   (if row < GRID_SIZE - 1 && b.isEmpty (row + 1) col && decide (b.vDotAt row col ≠ NO_DOT) then 1 else 0))

/-- The 81 cells in row-major scan order, as the nested
`for row in range(9): for col in range(9)` loop visits them. -/
def allCells : List (Nat × Nat) :=
  (List.range (GRID_SIZE * GRID_SIZE)).map (fun k => (k / GRID_SIZE, k % GRID_SIZE))

/-- The loop body accumulator of `select_unassigned_variable`: the current
best cell together with its recorded domain size and degree (`none` plays
the role of the initial `min_remaining = inf`, `selected_var = None`). -/
def mrvFold (b : Board) : List (Nat × Nat) → Option ((Nat × Nat) × Nat × Nat) → Option ((Nat × Nat) × Nat × Nat)
  | [], acc => acc
  | p :: rest, acc =>
    if b.isEmpty p.1 p.2 then
      let ds := (get_valid_values b p.1 p.2).length
      let dg := get_degree b p.1 p.2
      let replace : Bool :=
        match acc with
        | none => true
        | some (_, bs, bd) => decide (ds < bs) || (decide (ds = bs) && decide (dg > bd))
      mrvFold b rest (if replace then some (p, ds, dg) else acc)
    else mrvFold b rest acc

/-- `KropkiSolver.select_unassigned_variable`: scan all cells in row-major
order, keeping the empty cell with the smallest domain size, ties broken by
larger degree (updates only on strict improvement, so the first seen wins
remaining ties).  The method reads nothing from `self`, so the embedding
takes only the board. -/
def select_unassigned_variable (b : Board) : Option (Nat × Nat) :=
  (mrvFold b allCells none).map Prod.fst

/-- `KropkiSolver.order_domain_values`: `sorted(list(domain))`. -/
def order_domain_values (vs : List Nat) : List Nat :=
  List.insertionSort (· ≤ ·) vs

/-- `KropkiSolver.inference`: with forward checking off, always succeeds;
with it on, fails iff some other empty cell in the assigned cell's row,
column or block has an empty domain. -/
def KropkiSolver.inference (s : KropkiSolver) (b : Board) (row col : Nat) : Bool :=
  if s.use_forward_checking = false then true
  else
    decide (∀ i, i < GRID_SIZE →
      (i ≠ col → b.isEmpty row i = true → (get_valid_values b row i).length ≠ 0) ∧
      (i ≠ row → b.isEmpty i col = true → (get_valid_values b i col).length ≠ 0)) &&
    decide (∀ i, i < BLOCK_SIZE → ∀ j, j < BLOCK_SIZE →
      ((BLOCK_SIZE * (row / BLOCK_SIZE) + i ≠ row ∨ BLOCK_SIZE * (col / BLOCK_SIZE) + j ≠ col) →
        b.isEmpty (BLOCK_SIZE * (row / BLOCK_SIZE) + i) (BLOCK_SIZE * (col / BLOCK_SIZE) + j) = true →
        (get_valid_values b (BLOCK_SIZE * (row / BLOCK_SIZE) + i) (BLOCK_SIZE * (col / BLOCK_SIZE) + j)).length ≠ 0))

/-- The outcome of a `backtrack`/`solve` call: the returned boolean, the
solver with its updated counters, and the board in its state after the
call (Python mutates both in place). -/
structure SearchResult where
  solved : Bool
  solver : KropkiSolver
  board : Board

/-- The `for value in self.order_domain_values(domain)` loop body of
`KropkiSolver.backtrack`, with the recursive call abstracted as `recurse`:
re-verify the candidate, assign it (counting the assignment), run inference
when forward checking is on, recurse on success of inference, propagate a
successful recursion, and otherwise count a backtrack, reset the cell to
empty and continue with the next candidate. -/
def tryValues (recurse : KropkiSolver → Board → SearchResult) (row col : Nat) :
    List Nat → KropkiSolver → Board → SearchResult
  | [], s, b => ⟨false, s, b⟩
  | v :: vs, s, b =>
    if is_valid_sudoku_move b row col v && is_valid_dot_move b row col v then
      let b1 := b.setValue row col v
      let s1 := { s with assignments := s.assignments + 1 }
      let inferences_ok := if s1.use_forward_checking then s1.inference b1 row col else true
      let res := if inferences_ok then recurse s1 b1 else ⟨false, s1, b1⟩
      if res.solved then ⟨true, res.solver, res.board⟩
      else
        let s3 := { res.solver with backtracks := res.solver.backtracks + 1 }
        let b3 := res.board.setValue row col EMPTY_CELL
        tryValues recurse row col vs s3 b3
    else tryValues recurse row col vs s b

/-- `KropkiSolver.backtrack`.  The fuel argument bounds the recursion
depth; `solve` passes the number of empty cells, which the recursion
decreases by exactly one at every step, so the `fuel = 0` fallback (which
can only see a complete board) reproduces the base case. -/
def backtrack : Nat → KropkiSolver → Board → SearchResult
  | 0, s, b => ⟨b.is_complete, s, b⟩
  | fuel + 1, s, b =>
    if b.is_complete then ⟨true, s, b⟩
    else
      match select_unassigned_variable b with
      | none => ⟨false, s, b⟩
      | some (row, col) =>
          tryValues (backtrack fuel) row col
            (order_domain_values (get_valid_values b row col)) s b

/-- The number of empty cells of the 9x9 grid. -/
def emptyCount (b : Board) : Nat :=
  allCells.countP (fun p => b.isEmpty p.1 p.2)

/-- `KropkiSolver.solve` (via `backtracking_search`): run `backtrack` on
the board.  The fuel `emptyCount b` is exact (see `backtrack`). -/
def solve (s : KropkiSolver) (b : Board) : SearchResult :=
  backtrack (emptyCount b) s b

/-- `validate_grid_line` from `io_handler.py`, after integer parsing: a
grid line must have exactly 9 tokens, each 0 or in 1..9. -/
def validate_grid_line (line : List Nat) : Except String (List Nat) :=
  if line.length ≠ GRID_SIZE then .error "wrong number of values in grid line"
  else if line.any (fun v => !(decide (v = EMPTY_CELL) || (decide (MIN_VALUE ≤ v) && decide (v ≤ MAX_VALUE)))) then
    .error "invalid value in grid line"
  else .ok line

/-- `validate_dot_line`: a dot line must have the expected number of
tokens, each in `{NO_DOT, WHITE_DOT, BLACK_DOT}`. -/
def validate_dot_line (line : List Nat) (expected_length : Nat) : Except String (List Nat) :=
  if line.length ≠ expected_length then .error "wrong number of values in dot line"
  else if line.any (fun d => !(decide (d = NO_DOT) || decide (d = WHITE_DOT) || decide (d = BLACK_DOT))) then
    .error "invalid dot value"
  else .ok line

/-- The `for col, value in enumerate(values): board.set_value(row, col, value)`
loop of `load_puzzle`, with the running column index explicit. -/
def setRowFrom (b : Board) (row start : Nat) : List Nat → Board
  | [] => b
  | v :: vs => setRowFrom (b.setValue row start v) row (start + 1) vs

/-- The corresponding loop writing one horizontal-dot line. -/
def setHRowFrom (b : Board) (row start : Nat) : List Nat → Board
  | [] => b
  | d :: ds => setHRowFrom (b.setHDot row start d) row (start + 1) ds

/-- The corresponding loop writing one vertical-dot line. -/
def setVRowFrom (b : Board) (row start : Nat) : List Nat → Board
  | [] => b
  | d :: ds => setVRowFrom (b.setVDot row start d) row (start + 1) ds

/-- The grid-reading phase of `load_puzzle`: for each `row < 9`, fail if
the file has no such line, validate it, and write it into the board. -/
def loadGridRows (lines : List (List Nat)) (b : Board) : Except String Board :=
  (List.range GRID_SIZE).foldlM
    (fun b row =>
      if row < lines.length then do
        let vals ← validate_grid_line (lines.getD row [])
        pure (setRowFrom b row 0 vals)
      else .error "File too short: missing grid row")
    b

/-- The horizontal-dots phase of `load_puzzle` (lines 9..17). -/
def loadHDotRows (lines : List (List Nat)) (b : Board) : Except String Board :=
  (List.range GRID_SIZE).foldlM
    (fun b row =>
      if row + GRID_SIZE < lines.length then do
        let ds ← validate_dot_line (lines.getD (row + GRID_SIZE) []) (GRID_SIZE - 1)
        pure (setHRowFrom b row 0 ds)
      else .error "File too short: missing horizontal dots row")
    b

/-- The vertical-dots phase of `load_puzzle` (lines 18..25). -/
def loadVDotRows (lines : List (List Nat)) (b : Board) : Except String Board :=
  (List.range (GRID_SIZE - 1)).foldlM
    (fun b row =>
      if row + 2 * GRID_SIZE < lines.length then do
        let ds ← validate_dot_line (lines.getD (row + 2 * GRID_SIZE) []) GRID_SIZE
        pure (setVRowFrom b row 0 ds)
      else .error "File too short: missing vertical dots row")
    b

/-- The cell loop of `verify_initial_board`: every filled cell is
temporarily cleared, its value re-tested against both checks on the
cleared board, and restored. -/
def verifyCells (b : Board) : List (Nat × Nat) → Except String Board
  | [] => .ok b
  | p :: rest =>
    let value := b.grid p.1 p.2
    if value ≠ EMPTY_CELL then
      let cleared := b.setValue p.1 p.2 EMPTY_CELL
      if !(is_valid_sudoku_move cleared p.1 p.2 value) then
        .error "Initial value violates Sudoku rules"
      else if !(is_valid_dot_move cleared p.1 p.2 value) then
        .error "Initial value violates dot constraints"
      else verifyCells (cleared.setValue p.1 p.2 value) rest
    else verifyCells b rest

/-- `verify_initial_board` from `io_handler.py`: iterate the clue check
over all cells in row-major order.  The Python function returns `None`
and leaves the board as it found it; the embedding returns the resulting
board to make that restoration provable. -/
def verify_initial_board (b : Board) : Except String Board :=
  verifyCells b allCells

/-- `load_puzzle` from `io_handler.py`, after file reading and integer
parsing (the I/O periphery): `lines` is the list of nonempty lines, each a
list of parsed integer tokens.  Reads the grid, the horizontal dots and the
vertical dots, then verifies the initial board; any `ValueError` raised on
the way is re-raised (still a `ValueError`), so the result is `.error`. -/
def load_puzzle (lines : List (List Nat)) : Except String Board := do
  let b ← loadGridRows lines Board.empty
  let b ← loadHDotRows lines b
  let b ← loadVDotRows lines b
  verify_initial_board b

/-- `save_solution`-style helper: recognising a raised error. -/
def isErr {α : Type} : Except String α → Bool
  | .error _ => true
  | .ok _ => false

/-- `b'` is the board `b` with zero or more formerly-empty grid cells
filled in: every filled cell of `b` keeps its value and the dot matrices
are untouched.  This is the relation between the board a `backtrack` call
receives and the board it returns on success. -/
def Extends (b b' : Board) : Prop :=
  (∀ r c, b.grid r c ≠ EMPTY_CELL → b'.grid r c = b.grid r c) ∧
  b'.horizontal_dots = b.horizontal_dots ∧
  b'.vertical_dots = b.vertical_dots

/-- `g` agrees with every pre-filled cell of `b`. -/
def ExtendsGrid (b : Board) (g : Nat → Nat → Nat) : Prop :=
  ∀ r c, r < GRID_SIZE → c < GRID_SIZE → b.grid r c ≠ EMPTY_CELL → g r c = b.grid r c

/-- A full grid satisfying, cell by cell, exactly the constraints the
solver's two checks enforce: digits 1-9 everywhere, no repetition in any
row, column or 3x3 block, and every orthogonally adjacent pair passing the
dot check recorded in `b`'s dot matrices. -/
def SolutionGrid (b : Board) (g : Nat → Nat → Nat) : Prop :=
  (∀ r c, r < GRID_SIZE → c < GRID_SIZE → MIN_VALUE ≤ g r c ∧ g r c ≤ MAX_VALUE) ∧
  (∀ r c1 c2, r < GRID_SIZE → c1 < GRID_SIZE → c2 < GRID_SIZE → c1 ≠ c2 → g r c1 ≠ g r c2) ∧
  (∀ c r1 r2, c < GRID_SIZE → r1 < GRID_SIZE → r2 < GRID_SIZE → r1 ≠ r2 → g r1 c ≠ g r2 c) ∧
  (∀ r1 c1 r2 c2, r1 < GRID_SIZE → c1 < GRID_SIZE → r2 < GRID_SIZE → c2 < GRID_SIZE →
    r1 / BLOCK_SIZE = r2 / BLOCK_SIZE → c1 / BLOCK_SIZE = c2 / BLOCK_SIZE →
    (r1, c1) ≠ (r2, c2) → g r1 c1 ≠ g r2 c2) ∧
  (∀ r c, r < GRID_SIZE → c < GRID_SIZE - 1 →
    pairOk (b.horizontal_dots r c) (g r c) (g r (c + 1)) = true) ∧
  (∀ r c, r < GRID_SIZE - 1 → c < GRID_SIZE →
    pairOk (b.vertical_dots r c) (g r c) (g (r + 1) c) = true)

/-- Modelled from the spec: the semantic relation a dot value imposes on
the two adjacent digits — white means consecutive, black means one is
double the other, and no dot means *neither* relation holds. -/
def DotRel (d a n : Nat) : Prop :=
  (d = WHITE_DOT → (a = n + 1 ∨ n = a + 1)) ∧
  (d = BLACK_DOT → (a = 2 * n ∨ n = 2 * a)) ∧
  (d = NO_DOT → ¬(a = n + 1 ∨ n = a + 1 ∨ a = 2 * n ∨ n = 2 * a))

/-- Modelled from the spec: a full assignment of digits 1-9 extending the
board's pre-filled cells, in which every row, column and 3x3 block is a
permutation of 1-9 (each digit appears exactly once) and every
horizontally/vertically adjacent pair satisfies the relation of the dot
between it.  This is the claim-side notion of a solution. -/
def IsKropkiSolution (b : Board) (g : Nat → Nat → Nat) : Prop :=
  (∀ r c, r < GRID_SIZE → c < GRID_SIZE → MIN_VALUE ≤ g r c ∧ g r c ≤ MAX_VALUE) ∧
  ExtendsGrid b g ∧
  (∀ r v, r < GRID_SIZE → MIN_VALUE ≤ v → v ≤ MAX_VALUE → ∃! c, c < GRID_SIZE ∧ g r c = v) ∧
  (∀ c v, c < GRID_SIZE → MIN_VALUE ≤ v → v ≤ MAX_VALUE → ∃! r, r < GRID_SIZE ∧ g r c = v) ∧
  (∀ br bc v, br < BLOCK_SIZE → bc < BLOCK_SIZE → MIN_VALUE ≤ v → v ≤ MAX_VALUE →
    ∃! p : Nat × Nat, p.1 < BLOCK_SIZE ∧ p.2 < BLOCK_SIZE ∧
      g (BLOCK_SIZE * br + p.1) (BLOCK_SIZE * bc + p.2) = v) ∧
  (∀ r c, r < GRID_SIZE → c < GRID_SIZE - 1 →
    DotRel (b.horizontal_dots r c) (g r c) (g r (c + 1))) ∧
  (∀ r c, r < GRID_SIZE - 1 → c < GRID_SIZE →
    DotRel (b.vertical_dots r c) (g r c) (g (r + 1) c))

/-- Well-formedness of a board as claim C1 states it: grid values in
`{0..9}` and dot values in `{NONE, WHITE, BLACK}`. -/
def WellFormedBoard (b : Board) : Prop :=
  (∀ r c, r < GRID_SIZE → c < GRID_SIZE → b.grid r c ≤ MAX_VALUE) ∧
  (∀ r c, r < GRID_SIZE → c < GRID_SIZE - 1 → b.horizontal_dots r c ≤ BLACK_DOT) ∧
  (∀ r c, r < GRID_SIZE - 1 → c < GRID_SIZE → b.vertical_dots r c ≤ BLACK_DOT)

/-- The clue-consistency property `verify_initial_board` checks: every
filled cell, temporarily cleared, still passes both the Sudoku check and
the dot check for its own value. -/
def CluesConsistent (b : Board) : Prop :=
  ∀ r c, r < GRID_SIZE → c < GRID_SIZE → b.grid r c ≠ EMPTY_CELL →
    is_valid_sudoku_move (b.setValue r c EMPTY_CELL) r c (b.grid r c) = true ∧
    is_valid_dot_move (b.setValue r c EMPTY_CELL) r c (b.grid r c) = true

/-- The invariant the search maintains on the board: all grid values in
range and every filled cell consistent with the rest. -/
def SearchInv (b : Board) : Prop :=
  (∀ r c, r < GRID_SIZE → c < GRID_SIZE → b.grid r c ≤ MAX_VALUE) ∧ CluesConsistent b

/-- Modelled from the spec: the *plain* variable-selection variant — the
first empty cell in row-major scan order.  (No such variant exists in the
code; this definition exists to compare the implemented selector against
the claim.) -/
def plain_select_first_empty (b : Board) : Option (Nat × Nat) :=
  allCells.find? (fun p => b.isEmpty p.1 p.2)

/-- The MRV + degree ordering of claim C4: `p` is selected over `q` when
its domain is smaller, or equally small with larger degree, or tied on
both with `p` earlier in row-major order. -/
def mrvBetter (b : Board) (p q : Nat × Nat) : Prop :=
  (get_valid_values b p.1 p.2).length < (get_valid_values b q.1 q.2).length ∨
  ((get_valid_values b p.1 p.2).length = (get_valid_values b q.1 q.2).length ∧
    (get_degree b p.1 p.2 > get_degree b q.1 q.2 ∨
     (get_degree b p.1 p.2 = get_degree b q.1 q.2 ∧
      GRID_SIZE * p.1 + p.2 < GRID_SIZE * q.1 + q.2)))

/-- A completely filled but constraint-violating board (all ones): a
concrete well-formed input on which `solve` succeeds immediately although
no valid full assignment exists. -/
def bAllOnes : Board :=
  ⟨fun _ _ => 1, fun _ _ => 0, fun _ _ => 0⟩

/-- A board with a single empty cell at `(0,0)` whose domain is empty
(its row holds 2-9 and its column holds 1), so the search fails and must
leave the board untouched. -/
def bOneHole : Board :=
  ⟨fun r c => if r = 0 then (if c = 0 then 0 else c + 1) else (if c = 0 then 1 else c + 1),
   fun _ _ => 0, fun _ _ => 0⟩

/-- A board on which MRV selection diverges from plain row-major
selection: row 0 is entirely empty (so the plain variant would pick
`(0,0)`), while `(1,0)` is empty with an empty domain (so MRV picks it). -/
def bMRV : Board :=
  ⟨fun r c => if r = 0 then 0 else (if c = 0 then (if r = 1 then 0 else 1) else c + 1),
   fun _ _ => 0, fun _ _ => 0⟩

/-- The numeric value of `GRID_SIZE`. -/
@[simp] theorem GRID_SIZE_eq : GRID_SIZE = 9 := rfl

/-- The numeric value of `BLOCK_SIZE`. -/
@[simp] theorem BLOCK_SIZE_eq : BLOCK_SIZE = 3 := rfl

/-- The numeric value of `MIN_VALUE`. -/
@[simp] theorem MIN_VALUE_eq : MIN_VALUE = 1 := rfl

/-- The numeric value of `MAX_VALUE`. -/
@[simp] theorem MAX_VALUE_eq : MAX_VALUE = 9 := rfl

/-- The numeric value of `NO_DOT`. -/
@[simp] theorem NO_DOT_eq : NO_DOT = 0 := rfl

/-- The numeric value of `WHITE_DOT`. -/
@[simp] theorem WHITE_DOT_eq : WHITE_DOT = 1 := rfl

/-- The numeric value of `BLACK_DOT`. -/
@[simp] theorem BLACK_DOT_eq : BLACK_DOT = 2 := rfl

/-- The numeric value of `EMPTY_CELL`. -/
@[simp] theorem EMPTY_CELL_eq : EMPTY_CELL = 0 := rfl

/-- `set_value` leaves the horizontal dots untouched. -/
@[simp] theorem Board.setValue_hdots (b : Board) (r c v : Nat) :
    (b.setValue r c v).horizontal_dots = b.horizontal_dots := rfl

/-- `set_value` leaves the vertical dots untouched. -/
@[simp] theorem Board.setValue_vdots (b : Board) (r c v : Nat) :
    (b.setValue r c v).vertical_dots = b.vertical_dots := rfl

/-- Reading the grid after `set_value`. -/
theorem Board.setValue_grid (b : Board) (r c v r' c' : Nat) :
    (b.setValue r c v).grid r' c' = if r' = r ∧ c' = c then v else b.grid r' c' := rfl

/-- Reading the written cell after `set_value`. -/
@[simp] theorem Board.setValue_grid_self (b : Board) (r c v : Nat) :
    (b.setValue r c v).grid r c = v := by
  simp [Board.setValue]

/-- Reading any other cell after `set_value`. -/
theorem Board.setValue_grid_ne (b : Board) {r c r' c' : Nat} (v : Nat)
    (h : ¬(r' = r ∧ c' = c)) : (b.setValue r c v).grid r' c' = b.grid r' c' := by
  rw [Board.setValue_grid, if_neg h]

/-- Writing a value into an empty cell and then clearing it restores the
board exactly. -/
theorem Board.setValue_cancel {b : Board} {r c : Nat} (v : Nat)
    (h : b.grid r c = EMPTY_CELL) :
    (b.setValue r c v).setValue r c EMPTY_CELL = b := by
  cases b with
  | mk g hd vd =>
    simp only [Board.setValue]
    congr 1
    funext r' c'
    by_cases hc : r' = r ∧ c' = c
    · simp only [if_pos hc]
      obtain ⟨h1, h2⟩ := hc
      subst h1; subst h2
      exact h.symm
    · simp only [if_neg hc]

/-- Writes to distinct cells commute. -/
theorem Board.setValue_comm (b : Board) {r c r' c' : Nat} (v v' : Nat)
    (h : ¬(r' = r ∧ c' = c)) :
    (b.setValue r c v).setValue r' c' v' = (b.setValue r' c' v').setValue r c v := by
  cases b with
  | mk g hd vd =>
    simp only [Board.setValue]
    congr 1
    funext r2 c2
    by_cases h1 : r2 = r' ∧ c2 = c'
    · have h2 : ¬(r2 = r ∧ c2 = c) := by
        rintro ⟨rfl, rfl⟩; exact h ⟨h1.1.symm, h1.2.symm⟩
      simp only [if_pos h1, if_neg h2]
    · simp only [if_neg h1]

/-- Re-setting an already-stored value is the identity. -/
theorem Board.setValue_id {b : Board} {r c v : Nat} (h : b.grid r c = v) :
    b.setValue r c v = b := by
  cases b with
  | mk g hd vd =>
    simp only [Board.setValue]
    congr 1
    funext r' c'
    by_cases hc : r' = r ∧ c' = c
    · obtain ⟨h1, h2⟩ := hc
      subst h1; subst h2
      exact (if_pos ⟨rfl, rfl⟩).trans h.symm
    · simp only [if_neg hc]

/-- An `if _ then x else true` boolean is true iff the guard implies `x`. -/
theorem if_then_true_iff {P : Prop} [Decidable P] {x : Bool} :
    (if P then x else true) = true ↔ (P → x = true) := by
  by_cases h : P <;> simp [h]

/-- The white-dot check is symmetric in its two values. -/
theorem check_white_dot_constraint_symm (a n : Nat) :
    check_white_dot_constraint a n = check_white_dot_constraint n a := by
  by_cases h : a = EMPTY_CELL ∨ n = EMPTY_CELL
  · rw [check_white_dot_constraint, if_pos h, check_white_dot_constraint, if_pos h.symm]
  · rw [check_white_dot_constraint, if_neg h, check_white_dot_constraint,
      if_neg (fun hc => h hc.symm)]
    have : ((a : Int) - n).natAbs = ((n : Int) - a).natAbs := by
      rw [← Int.natAbs_neg, neg_sub]
    rw [this]

/-- The black-dot check is symmetric in its two values. -/
theorem check_black_dot_constraint_symm (a n : Nat) :
    check_black_dot_constraint a n = check_black_dot_constraint n a := by
  by_cases h : a = EMPTY_CELL ∨ n = EMPTY_CELL
  · rw [check_black_dot_constraint, if_pos h, check_black_dot_constraint, if_pos h.symm]
  · rw [check_black_dot_constraint, if_neg h, check_black_dot_constraint,
      if_neg (fun hc => h hc.symm)]
    simp [or_comm]

/-- The no-dot check is symmetric in its two values. -/
theorem check_no_dot_constraint_symm (a n : Nat) :
    check_no_dot_constraint a n = check_no_dot_constraint n a := by
  by_cases h : a = EMPTY_CELL ∨ n = EMPTY_CELL
  · rw [check_no_dot_constraint, if_pos h, check_no_dot_constraint, if_pos h.symm]
  · rw [check_no_dot_constraint, if_neg h, check_no_dot_constraint,
      if_neg (fun hc => h hc.symm), check_white_dot_constraint_symm,
      check_black_dot_constraint_symm]

/-- A single neighbour check does not depend on the order of the two
values. -/
theorem pairOk_symm (d a n : Nat) : pairOk d a n = pairOk d n a := by
  rw [pairOk, pairOk, check_white_dot_constraint_symm, check_black_dot_constraint_symm,
    check_no_dot_constraint_symm]

/-- Semantics of the white-dot check on two nonzero values. -/
theorem check_white_dot_constraint_iff {a n : Nat} (ha : a ≠ EMPTY_CELL) (hn : n ≠ EMPTY_CELL) :
    check_white_dot_constraint a n = true ↔ (a = n + 1 ∨ n = a + 1) := by
  rw [check_white_dot_constraint, if_neg (by push_neg; exact ⟨ha, hn⟩)]
  simp only [decide_eq_true_eq]
  omega

/-- Semantics of the black-dot check on two nonzero values. -/
theorem check_black_dot_constraint_iff {a n : Nat} (ha : a ≠ EMPTY_CELL) (hn : n ≠ EMPTY_CELL) :
    check_black_dot_constraint a n = true ↔ (a = 2 * n ∨ n = 2 * a) := by
  rw [check_black_dot_constraint, if_neg (by push_neg; exact ⟨ha, hn⟩)]
  simp

/-- Semantics of the no-dot check on two nonzero values: the pair is
neither consecutive nor in a double relationship. -/
theorem check_no_dot_constraint_iff {a n : Nat} (ha : a ≠ EMPTY_CELL) (hn : n ≠ EMPTY_CELL) :
    check_no_dot_constraint a n = true ↔
      ¬(a = n + 1 ∨ n = a + 1 ∨ a = 2 * n ∨ n = 2 * a) := by
  rw [check_no_dot_constraint, if_neg (by push_neg; exact ⟨ha, hn⟩)]
  rw [Bool.not_eq_true', Bool.or_eq_false_iff]
  constructor
  · rintro ⟨hw, hb⟩ h
    rcases h with h | h | h | h
    · rw [← Bool.not_eq_true, check_white_dot_constraint_iff ha hn] at hw
      exact hw (Or.inl h)
    · rw [← Bool.not_eq_true, check_white_dot_constraint_iff ha hn] at hw
      exact hw (Or.inr h)
    · rw [← Bool.not_eq_true, check_black_dot_constraint_iff ha hn] at hb
      exact hb (Or.inl h)
    · rw [← Bool.not_eq_true, check_black_dot_constraint_iff ha hn] at hb
      exact hb (Or.inr h)
  · intro h
    constructor
    · rw [← Bool.not_eq_true, check_white_dot_constraint_iff ha hn]
      intro hc
      rcases hc with hc | hc
      · exact h (Or.inl hc)
      · exact h (Or.inr (Or.inl hc))
    · rw [← Bool.not_eq_true, check_black_dot_constraint_iff ha hn]
      intro hc
      rcases hc with hc | hc
      · exact h (Or.inr (Or.inr (Or.inl hc)))
      · exact h (Or.inr (Or.inr (Or.inr hc)))

/-- `pairOk` coincides with the spec-side dot relation on nonzero pairs. -/
theorem pairOk_iff_DotRel {d a n : Nat} (ha : a ≠ EMPTY_CELL) (hn : n ≠ EMPTY_CELL) :
    pairOk d a n = true ↔ DotRel d a n := by
  rw [pairOk, DotRel]
  simp only [Bool.and_eq_true, if_then_true_iff]
  constructor
  · rintro ⟨⟨hw, hb⟩, hz⟩
    refine ⟨?_, ?_, ?_⟩
    · intro hd; rw [← check_white_dot_constraint_iff ha hn]; exact hw hd
    · intro hd; rw [← check_black_dot_constraint_iff ha hn]; exact hb hd
    · intro hd; rw [← check_no_dot_constraint_iff ha hn]; exact hz hd
  · rintro ⟨hw, hb, hz⟩
    refine ⟨⟨?_, ?_⟩, ?_⟩
    · intro hd; rw [check_white_dot_constraint_iff ha hn]; exact hw hd
    · intro hd; rw [check_black_dot_constraint_iff ha hn]; exact hb hd
    · intro hd; rw [check_no_dot_constraint_iff ha hn]; exact hz hd

/-- Propositional reading of `is_valid_sudoku_move` for a nonzero value:
no filled cell of the row, the column or the block holds the value. -/
theorem is_valid_sudoku_move_iff {b : Board} {row col v : Nat} (hv : v ≠ EMPTY_CELL) :
    is_valid_sudoku_move b row col v = true ↔
      (¬ ∃ j, j < 9 ∧ b.grid row j ≠ 0 ∧ b.grid row j = v) ∧
      (¬ ∃ i, i < 9 ∧ b.grid i col ≠ 0 ∧ b.grid i col = v) ∧
      (¬ ∃ i, i < 3 ∧ ∃ j, j < 3 ∧
        b.grid (3 * (row / 3) + i) (3 * (col / 3) + j) ≠ 0 ∧
        b.grid (3 * (row / 3) + i) (3 * (col / 3) + j) = v) := by
  rw [is_valid_sudoku_move, if_neg hv]
  simp only [Bool.and_eq_true, Bool.not_eq_true', decide_eq_false_iff_not, GRID_SIZE_eq,
    BLOCK_SIZE_eq, EMPTY_CELL_eq]
  push_neg
  tauto

/-- Propositional reading of `is_valid_dot_move` for a nonzero value:
each direction with a filled neighbour passes its `pairOk` check. -/
theorem is_valid_dot_move_iff {b : Board} {row col v : Nat} (hv : v ≠ EMPTY_CELL) :
    is_valid_dot_move b row col v = true ↔
      ((0 < col ∧ b.grid row (col - 1) ≠ 0 →
          pairOk (b.hDotAt row (col - 1)) v (b.grid row (col - 1)) = true) ∧
       (col < 8 ∧ b.grid row (col + 1) ≠ 0 →
          pairOk (b.hDotAt row col) v (b.grid row (col + 1)) = true) ∧
       (0 < row ∧ b.grid (row - 1) col ≠ 0 →
          pairOk (b.vDotAt (row - 1) col) v (b.grid (row - 1) col) = true) ∧
       (row < 8 ∧ b.grid (row + 1) col ≠ 0 →
          pairOk (b.vDotAt row col) v (b.grid (row + 1) col) = true)) := by
  rw [is_valid_dot_move, if_neg hv]
  simp only [Bool.and_eq_true, if_then_true_iff, GRID_SIZE_eq, EMPTY_CELL_eq]
  norm_num
  tauto

/-- Reflexivity of board extension. -/
theorem Extends.rfl (b : Board) : Extends b b :=
  ⟨fun _ _ _ => Eq.refl _, Eq.refl _, Eq.refl _⟩

/-- Transitivity of board extension. -/
theorem Extends.trans {a b c : Board} (h1 : Extends a b) (h2 : Extends b c) :
    Extends a c := by
  refine ⟨fun r cc h => ?_, h2.2.1.trans h1.2.1, h2.2.2.trans h1.2.2⟩
  rw [h2.1 r cc (by rw [h1.1 r cc h]; exact h), h1.1 r cc h]

/-- Filling an empty cell extends the board. -/
theorem Extends.setValue {b : Board} {r c : Nat} (v : Nat)
    (h : b.grid r c = EMPTY_CELL) : Extends b (b.setValue r c v) := by
  refine ⟨fun r' c' h' => ?_, Board.setValue_hdots b r c v, Board.setValue_vdots b r c v⟩
  apply Board.setValue_grid_ne
  rintro ⟨rfl, rfl⟩
  exact h' h

/-- Extension preserves horizontal-dot reads. -/
theorem Extends.hDotAt_eq {b b' : Board} (h : Extends b b') (r c : Nat) :
    b'.hDotAt r c = b.hDotAt r c := by
  rw [Board.hDotAt, Board.hDotAt, h.2.1]

/-- Extension preserves vertical-dot reads. -/
theorem Extends.vDotAt_eq {b b' : Board} (h : Extends b b') (r c : Nat) :
    b'.vDotAt r c = b.vDotAt r c := by
  rw [Board.vDotAt, Board.vDotAt, h.2.2]

/-- A move valid on an extension of `b` is valid on `b`: adding filled
cells can only add Sudoku conflicts. -/
theorem is_valid_sudoku_move_mono {b b' : Board} {row col v : Nat}
    (hext : Extends b b') (h : is_valid_sudoku_move b' row col v = true) :
    is_valid_sudoku_move b row col v = true := by
  by_cases hv : v = EMPTY_CELL
  · rw [is_valid_sudoku_move, if_pos hv]
  · rw [is_valid_sudoku_move_iff hv] at h ⊢
    obtain ⟨h1, h2, h3⟩ := h
    refine ⟨fun hc => ?_, fun hc => ?_, fun hc => ?_⟩
    · obtain ⟨j, hj, hne, heq⟩ := hc
      exact h1 ⟨j, hj, by rw [hext.1 _ _ hne]; exact hne, by rw [hext.1 _ _ hne]; exact heq⟩
    · obtain ⟨i, hi, hne, heq⟩ := hc
      exact h2 ⟨i, hi, by rw [hext.1 _ _ hne]; exact hne, by rw [hext.1 _ _ hne]; exact heq⟩
    · obtain ⟨i, hi, j, hj, hne, heq⟩ := hc
      exact h3 ⟨i, hi, j, hj, by rw [hext.1 _ _ hne]; exact hne, by rw [hext.1 _ _ hne]; exact heq⟩

/-- A move valid on an extension of `b` is valid on `b`: every dot check
`b` performs, the extension also performs, with the same dot and the same
neighbour value. -/
theorem is_valid_dot_move_mono {b b' : Board} {row col v : Nat}
    (hext : Extends b b') (h : is_valid_dot_move b' row col v = true) :
    is_valid_dot_move b row col v = true := by
  by_cases hv : v = EMPTY_CELL
  · rw [is_valid_dot_move, if_pos hv]
  · rw [is_valid_dot_move_iff hv] at h ⊢
    obtain ⟨h1, h2, h3, h4⟩ := h
    refine ⟨fun hc => ?_, fun hc => ?_, fun hc => ?_, fun hc => ?_⟩
    · rw [← hext.hDotAt_eq, ← hext.1 _ _ hc.2]
      exact h1 ⟨hc.1, by rw [hext.1 _ _ hc.2]; exact hc.2⟩
    · rw [← hext.hDotAt_eq, ← hext.1 _ _ hc.2]
      exact h2 ⟨hc.1, by rw [hext.1 _ _ hc.2]; exact hc.2⟩
    · rw [← hext.vDotAt_eq, ← hext.1 _ _ hc.2]
      exact h3 ⟨hc.1, by rw [hext.1 _ _ hc.2]; exact hc.2⟩
    · rw [← hext.vDotAt_eq, ← hext.1 _ _ hc.2]
      exact h4 ⟨hc.1, by rw [hext.1 _ _ hc.2]; exact hc.2⟩

/-- Membership in the computed domain of a cell. -/
theorem mem_get_valid_values {b : Board} {row col v : Nat} :
    v ∈ get_valid_values b row col ↔
      b.grid row col = EMPTY_CELL ∧ 1 ≤ v ∧ v ≤ 9 ∧
      is_valid_sudoku_move b row col v = true ∧ is_valid_dot_move b row col v = true := by
  rw [get_valid_values]
  by_cases h : b.isEmpty row col
  · rw [if_neg (by simp [h])]
    rw [Board.isEmpty, decide_eq_true_eq] at h
    simp only [List.mem_filter, List.mem_range'_1, Bool.and_eq_true, MIN_VALUE_eq, MAX_VALUE_eq]
    constructor
    · rintro ⟨⟨hlo, hhi⟩, hs, hd⟩
      exact ⟨h, hlo, by omega, hs, hd⟩
    · rintro ⟨_, hlo, hhi, hs, hd⟩
      exact ⟨⟨hlo, by omega⟩, hs, hd⟩
  · rw [if_pos (by simp [h])]
    rw [Board.isEmpty, decide_eq_true_eq] at h
    constructor
    · intro hc; cases hc
    · rintro ⟨hc, -⟩; exact absurd hc h

/-- The computed domain is sorted in ascending order. -/
theorem get_valid_values_sorted (b : Board) (row col : Nat) :
    List.Sorted (· ≤ ·) (get_valid_values b row col) := by
  rw [get_valid_values]
  split
  · exact List.sorted_nil
  · apply List.Pairwise.sublist (List.filter_sublist _)
    have : List.range' MIN_VALUE MAX_VALUE = [1, 2, 3, 4, 5, 6, 7, 8, 9] := by decide
    rw [this]
    decide

/-- `order_domain_values` returns the computed domain unchanged: the
domain is already in ascending order. -/
theorem order_domain_values_get_valid_values (b : Board) (row col : Nat) :
    order_domain_values (get_valid_values b row col) = get_valid_values b row col := by
  rw [order_domain_values]
  exact List.eq_of_perm_of_sorted (List.perm_insertionSort _ _)
    (List.sorted_insertionSort _ _) (get_valid_values_sorted b row col)

/-- The domain of a cell only shrinks as the board gets more filled. -/
theorem get_valid_values_mono {b b' : Board} {row col v : Nat}
    (hext : Extends b b') (hempty : b.grid row col = EMPTY_CELL)
    (h : v ∈ get_valid_values b' row col) : v ∈ get_valid_values b row col := by
  rw [mem_get_valid_values] at h ⊢
  exact ⟨hempty, h.2.1, h.2.2.1, is_valid_sudoku_move_mono hext h.2.2.2.1,
    is_valid_dot_move_mono hext h.2.2.2.2⟩

/-- The row-major cell list enumerates exactly the valid positions. -/
theorem mem_allCells {p : Nat × Nat} : p ∈ allCells ↔ p.1 < 9 ∧ p.2 < 9 := by
  obtain ⟨p1, p2⟩ := p
  have ha : allCells = (List.range 81).map (fun k => (k / 9, k % 9)) := rfl
  rw [ha, List.mem_map]
  dsimp only
  simp only [List.mem_range, Prod.mk.injEq]
  constructor
  · rintro ⟨k, hk, hk1, hk2⟩
    subst hk1
    subst hk2
    exact ⟨by omega, by omega⟩
  · rintro ⟨h1, h2⟩
    exact ⟨9 * p1 + p2, by omega, by omega, by omega⟩

/-- The row-major cell list has no duplicates. -/
theorem allCells_nodup : allCells.Nodup := by
  have ha : allCells = (List.range 81).map (fun k => (k / 9, k % 9)) := rfl
  rw [ha]
  apply List.Nodup.map_on
  · intro x hx y hy h
    rw [List.mem_range] at hx hy
    rw [Prod.mk.injEq] at h
    omega
  · exact List.nodup_range _

/-- Propositional reading of `is_complete`. -/
theorem is_complete_iff {b : Board} :
    b.is_complete = true ↔ ∀ r c, r < 9 → c < 9 → b.grid r c ≠ 0 := by
  rw [Board.is_complete, decide_eq_true_eq]
  simp only [GRID_SIZE_eq, EMPTY_CELL_eq]
  exact ⟨fun h r c hr hc => h r hr c hc, fun h r hr c hc => h r c hr hc⟩

/-- Counting with a predicate that flips from true to false at exactly one
element of a duplicate-free list lowers the count by one. -/
theorem countP_pred_of_single_flip {α : Type} {l : List α} {P Q : α → Bool} {p : α}
    (hnd : l.Nodup) (hp : p ∈ l) (hPp : P p = true) (hQp : Q p = false)
    (hagree : ∀ q ∈ l, q ≠ p → Q q = P q) :
    l.countP Q + 1 = l.countP P := by
  induction l with
  | nil => cases hp
  | cons a t ih =>
    rw [List.countP_cons, List.countP_cons]
    rcases List.mem_cons.mp hp with rfl | hpt
    · have hQt : t.countP Q = t.countP P := by
        apply List.countP_congr
        intro q hq
        rw [hagree q (List.mem_cons_of_mem _ hq)
          (fun h => (List.nodup_cons.mp hnd).1 (h ▸ hq))]
      rw [hQt, hQp, hPp]
      simp
    · have ha : a ≠ p := fun h => (List.nodup_cons.mp hnd).1 (h ▸ hpt)
      rw [hagree a (List.mem_cons_self a t) ha]
      have := ih (List.nodup_cons.mp hnd).2 hpt
        (fun q hq hqp => hagree q (List.mem_cons_of_mem a hq) hqp)
      omega

/-- `is_complete` holds exactly when the empty-cell count is zero. -/
theorem emptyCount_eq_zero_iff {b : Board} :
    emptyCount b = 0 ↔ b.is_complete = true := by
  rw [emptyCount, List.countP_eq_zero, is_complete_iff]
  constructor
  · intro h r c hr hc hz
    have := h (r, c) ((@mem_allCells (r, c)).mpr ⟨hr, hc⟩)
    rw [Board.isEmpty] at this
    simp only [EMPTY_CELL_eq, decide_eq_true_eq] at this
    exact this hz
  · intro h p hp
    rw [Board.isEmpty]
    simp only [EMPTY_CELL_eq, decide_eq_true_eq]
    exact h p.1 p.2 (mem_allCells.mp hp).1 (mem_allCells.mp hp).2

/-- Filling an empty in-range cell with a nonzero value lowers the
empty-cell count by exactly one. -/
theorem emptyCount_setValue {b : Board} {r c v : Nat} (hr : r < 9) (hc : c < 9)
    (hempty : b.grid r c = EMPTY_CELL) (hv : v ≠ EMPTY_CELL) :
    emptyCount (b.setValue r c v) + 1 = emptyCount b := by
  rw [emptyCount, emptyCount]
  apply countP_pred_of_single_flip allCells_nodup ((@mem_allCells (r, c)).mpr ⟨hr, hc⟩)
  · rw [Board.isEmpty]
    simp [hempty]
  · rw [Board.isEmpty]
    simp only [Board.setValue_grid_self, decide_eq_false_iff_not]
    exact hv
  · intro q _ hqp
    rw [Board.isEmpty, Board.isEmpty]
    rw [Board.setValue_grid_ne]
    rintro ⟨h1, h2⟩
    exact hqp (Prod.ext h1 h2)

/-- A strict improvement in (domain size, degree) composes with the MRV
selection order. -/
theorem mrvBetter_trans_strict {b : Board} {p q r' : Nat × Nat}
    (h1 : (get_valid_values b p.1 p.2).length < (get_valid_values b q.1 q.2).length ∨
          ((get_valid_values b p.1 p.2).length = (get_valid_values b q.1 q.2).length ∧
           get_degree b p.1 p.2 > get_degree b q.1 q.2))
    (h2 : mrvBetter b q r') : mrvBetter b p r' := by
  simp only [mrvBetter, GRID_SIZE_eq] at h2 ⊢
  omega

/-- A cell that is not strictly improved upon and comes earlier in scan
order stays selected. -/
theorem mrvBetter_of_not_strict {b : Board} {p q : Nat × Nat}
    (h : ¬((get_valid_values b q.1 q.2).length < (get_valid_values b p.1 p.2).length ∨
           ((get_valid_values b q.1 q.2).length = (get_valid_values b p.1 p.2).length ∧
            get_degree b q.1 q.2 > get_degree b p.1 p.2)))
    (hidx : 9 * p.1 + p.2 < 9 * q.1 + q.2) : mrvBetter b p q := by
  simp only [mrvBetter, GRID_SIZE_eq]
  omega

/-- Fold invariant of `select_unassigned_variable`: scanning the cells
with row-major indices `n .. n+m-1` extends the recorded argmin (smallest
domain, then largest degree, then first seen) from the first `n` cells to
the first `n+m` cells. -/
theorem mrvFold_invariant (b : Board) (m : Nat) :
    ∀ (n : Nat) (acc : Option ((Nat × Nat) × Nat × Nat)), n + m ≤ 81 →
      (acc = none → ∀ q1 q2 : Nat, q1 < 9 → q2 < 9 → 9 * q1 + q2 < n → b.grid q1 q2 ≠ 0) →
      (∀ p ds dg, acc = some (p, ds, dg) →
        p.1 < 9 ∧ p.2 < 9 ∧ 9 * p.1 + p.2 < n ∧ b.grid p.1 p.2 = 0 ∧
        ds = (get_valid_values b p.1 p.2).length ∧ dg = get_degree b p.1 p.2 ∧
        (∀ q1 q2, q1 < 9 → q2 < 9 → 9 * q1 + q2 < n → b.grid q1 q2 = 0 →
          (q1, q2) ≠ p → mrvBetter b p (q1, q2))) →
      ((mrvFold b ((List.range' n m).map (fun k => (k / 9, k % 9))) acc = none →
          ∀ q1 q2 : Nat, q1 < 9 → q2 < 9 → 9 * q1 + q2 < n + m → b.grid q1 q2 ≠ 0) ∧
       (∀ p ds dg,
          mrvFold b ((List.range' n m).map (fun k => (k / 9, k % 9))) acc = some (p, ds, dg) →
          p.1 < 9 ∧ p.2 < 9 ∧ 9 * p.1 + p.2 < n + m ∧ b.grid p.1 p.2 = 0 ∧
          ds = (get_valid_values b p.1 p.2).length ∧ dg = get_degree b p.1 p.2 ∧
          (∀ q1 q2, q1 < 9 → q2 < 9 → 9 * q1 + q2 < n + m → b.grid q1 q2 = 0 →
            (q1, q2) ≠ p → mrvBetter b p (q1, q2)))) := by
  induction m with
  | zero =>
    intro n acc hnm h0 hs
    have hr0 : (List.range' n 0).map (fun k => (k / 9, k % 9)) = [] := rfl
    rw [hr0]
    have hfold : mrvFold b [] acc = acc := rfl
    rw [hfold]
    constructor
    · intro h q1 q2 hq1 hq2 hqlt
      exact h0 h q1 q2 hq1 hq2 (by omega)
    · intro p ds dg h
      obtain ⟨a1, a2, a3, a4, a5, a6, a7⟩ := hs p ds dg h
      exact ⟨a1, a2, by omega, a4, a5, a6,
        fun q1 q2 hq1 hq2 hqlt hqe hqne => a7 q1 q2 hq1 hq2 (by omega) hqe hqne⟩
  | succ m ih =>
    intro n acc hnm h0 hs
    rw [List.range'_succ, List.map_cons]
    have hn81 : n < 81 := by omega
    have hcell1 : n / 9 < 9 := by omega
    have hcell2 : n % 9 < 9 := by omega
    by_cases hE : b.isEmpty (n / 9) (n % 9) = true
    · have hEg : b.grid (n / 9) (n % 9) = 0 := by
        rw [Board.isEmpty] at hE
        simpa using hE
      rcases acc with _ | ⟨⟨p, bs, bd⟩⟩
      · -- accumulator still empty: the current cell is recorded
        have step : mrvFold b ((n / 9, n % 9) ::
              (List.range' (n + 1) m).map (fun k => (k / 9, k % 9))) none =
            mrvFold b ((List.range' (n + 1) m).map (fun k => (k / 9, k % 9)))
              (some ((n / 9, n % 9), (get_valid_values b (n / 9) (n % 9)).length,
                get_degree b (n / 9) (n % 9))) := by
          simp only [mrvFold, hE, if_true]
        rw [step]
        have hres := ih (n + 1)
          (some ((n / 9, n % 9), (get_valid_values b (n / 9) (n % 9)).length,
            get_degree b (n / 9) (n % 9)))
          (by omega) (fun hcon => absurd hcon (by simp))
          (by
            rintro p' ds' dg' hacc
            simp only [Option.some.injEq, Prod.mk.injEq] at hacc
            obtain ⟨rfl, rfl, rfl⟩ := hacc
            refine ⟨hcell1, hcell2, show 9 * (n / 9) + n % 9 < n + 1 by omega, hEg,
              rfl, rfl, ?_⟩
            intro q1 q2 hq1 hq2 hqlt hqe hqne
            rcases (by omega : 9 * q1 + q2 < n ∨ 9 * q1 + q2 = n) with hlt | heq
            · exact absurd hqe (h0 rfl q1 q2 hq1 hq2 hlt)
            · exfalso
              apply hqne
              have hq1e : q1 = n / 9 := by omega
              have hq2e : q2 = n % 9 := by omega
              rw [hq1e, hq2e])
        constructor
        · intro h q1 q2 hq1 hq2 hqlt
          exact hres.1 h q1 q2 hq1 hq2 (by omega)
        · intro p' ds' dg' h
          obtain ⟨a1, a2, a3, a4, a5, a6, a7⟩ := hres.2 p' ds' dg' h
          exact ⟨a1, a2, by omega, a4, a5, a6,
            fun q1 q2 hq1 hq2 hqlt hqe hqne => a7 q1 q2 hq1 hq2 (by omega) hqe hqne⟩
      · -- accumulator holds a current best
        obtain ⟨hp1, hp2, hpidx, hpe, hbs, hbd, hbest⟩ := hs p bs bd rfl
        subst hbs
        subst hbd
        cases hB : (decide ((get_valid_values b (n / 9) (n % 9)).length <
              (get_valid_values b p.1 p.2).length) ||
            (decide ((get_valid_values b (n / 9) (n % 9)).length =
              (get_valid_values b p.1 p.2).length) &&
             decide (get_degree b (n / 9) (n % 9) > get_degree b p.1 p.2))) with
        | true =>
          have hrep : (get_valid_values b (n / 9) (n % 9)).length <
                (get_valid_values b p.1 p.2).length ∨
              ((get_valid_values b (n / 9) (n % 9)).length =
                (get_valid_values b p.1 p.2).length ∧
               get_degree b (n / 9) (n % 9) > get_degree b p.1 p.2) := by
            simpa using hB
          have step : mrvFold b ((n / 9, n % 9) ::
                (List.range' (n + 1) m).map (fun k => (k / 9, k % 9)))
                (some (p, (get_valid_values b p.1 p.2).length, get_degree b p.1 p.2)) =
              mrvFold b ((List.range' (n + 1) m).map (fun k => (k / 9, k % 9)))
                (some ((n / 9, n % 9), (get_valid_values b (n / 9) (n % 9)).length,
                  get_degree b (n / 9) (n % 9))) := by
            simp only [mrvFold, hE, if_true, hB]
          rw [step]
          have hres := ih (n + 1)
            (some ((n / 9, n % 9), (get_valid_values b (n / 9) (n % 9)).length,
              get_degree b (n / 9) (n % 9)))
            (by omega) (fun hcon => absurd hcon (by simp))
            (by
              rintro p' ds' dg' hacc
              simp only [Option.some.injEq, Prod.mk.injEq] at hacc
              obtain ⟨rfl, rfl, rfl⟩ := hacc
              refine ⟨hcell1, hcell2, show 9 * (n / 9) + n % 9 < n + 1 by omega, hEg,
                rfl, rfl, ?_⟩
              intro q1 q2 hq1 hq2 hqlt hqe hqne
              rcases (by omega : 9 * q1 + q2 < n ∨ 9 * q1 + q2 = n) with hlt | heq
              · by_cases hqp : (q1, q2) = p
                · rw [hqp]
                  unfold mrvBetter
                  rcases hrep with hx | ⟨hx1, hx2⟩
                  · exact Or.inl hx
                  · exact Or.inr ⟨hx1, Or.inl hx2⟩
                · exact mrvBetter_trans_strict hrep
                    (hbest q1 q2 hq1 hq2 hlt hqe hqp)
              · exfalso
                apply hqne
                have hq1e : q1 = n / 9 := by omega
                have hq2e : q2 = n % 9 := by omega
                rw [hq1e, hq2e])
          constructor
          · intro h q1 q2 hq1 hq2 hqlt
            exact hres.1 h q1 q2 hq1 hq2 (by omega)
          · intro p' ds' dg' h
            obtain ⟨a1, a2, a3, a4, a5, a6, a7⟩ := hres.2 p' ds' dg' h
            exact ⟨a1, a2, by omega, a4, a5, a6,
              fun q1 q2 hq1 hq2 hqlt hqe hqne => a7 q1 q2 hq1 hq2 (by omega) hqe hqne⟩
        | false =>
          have hnostrict : ¬((get_valid_values b (n / 9) (n % 9)).length <
                (get_valid_values b p.1 p.2).length ∨
              ((get_valid_values b (n / 9) (n % 9)).length =
                (get_valid_values b p.1 p.2).length ∧
               get_degree b (n / 9) (n % 9) > get_degree b p.1 p.2)) := by
            intro hcon
            rcases hcon with hx | ⟨hx1, hx2⟩
            · simp [hx] at hB
            · simp [hx1, hx2] at hB
          have step : mrvFold b ((n / 9, n % 9) ::
                (List.range' (n + 1) m).map (fun k => (k / 9, k % 9)))
                (some (p, (get_valid_values b p.1 p.2).length, get_degree b p.1 p.2)) =
              mrvFold b ((List.range' (n + 1) m).map (fun k => (k / 9, k % 9)))
                (some (p, (get_valid_values b p.1 p.2).length, get_degree b p.1 p.2)) := by
            simp only [mrvFold, hE, if_true, hB, Bool.false_eq_true, if_false]
          rw [step]
          have hres := ih (n + 1)
            (some (p, (get_valid_values b p.1 p.2).length, get_degree b p.1 p.2))
            (by omega) (fun hcon => absurd hcon (by simp))
            (by
              rintro p' ds' dg' hacc
              simp only [Option.some.injEq, Prod.mk.injEq] at hacc
              obtain ⟨rfl, rfl, rfl⟩ := hacc
              refine ⟨hp1, hp2, by omega, hpe, rfl, rfl, ?_⟩
              intro q1 q2 hq1 hq2 hqlt hqe hqne
              rcases (by omega : 9 * q1 + q2 < n ∨ 9 * q1 + q2 = n) with hlt | heq
              · exact hbest q1 q2 hq1 hq2 hlt hqe hqne
              · have hq1e : q1 = n / 9 := by omega
                have hq2e : q2 = n % 9 := by omega
                apply mrvBetter_of_not_strict
                · rw [hq1e, hq2e]
                  exact hnostrict
                · omega)
          constructor
          · intro h q1 q2 hq1 hq2 hqlt
            exact hres.1 h q1 q2 hq1 hq2 (by omega)
          · intro p' ds' dg' h
            obtain ⟨a1, a2, a3, a4, a5, a6, a7⟩ := hres.2 p' ds' dg' h
            exact ⟨a1, a2, by omega, a4, a5, a6,
              fun q1 q2 hq1 hq2 hqlt hqe hqne => a7 q1 q2 hq1 hq2 (by omega) hqe hqne⟩
    · -- current cell is filled: skipped
      have hEg : b.grid (n / 9) (n % 9) ≠ 0 := by
        rw [Board.isEmpty] at hE
        simpa using hE
      have step : mrvFold b ((n / 9, n % 9) ::
            (List.range' (n + 1) m).map (fun k => (k / 9, k % 9))) acc =
          mrvFold b ((List.range' (n + 1) m).map (fun k => (k / 9, k % 9))) acc := by
        simp only [mrvFold]
        rw [if_neg hE]
      rw [step]
      have hres := ih (n + 1) acc (by omega)
        (by
          intro hacc q1 q2 hq1 hq2 hqlt
          rcases (by omega : 9 * q1 + q2 < n ∨ 9 * q1 + q2 = n) with hlt | heq
          · exact h0 hacc q1 q2 hq1 hq2 hlt
          · have hq1e : q1 = n / 9 := by omega
            have hq2e : q2 = n % 9 := by omega
            rw [hq1e, hq2e]
            exact hEg)
        (by
          intro p ds dg hacc
          obtain ⟨a1, a2, a3, a4, a5, a6, a7⟩ := hs p ds dg hacc
          refine ⟨a1, a2, by omega, a4, a5, a6, ?_⟩
          intro q1 q2 hq1 hq2 hqlt hqe hqne
          rcases (by omega : 9 * q1 + q2 < n ∨ 9 * q1 + q2 = n) with hlt | heq
          · exact a7 q1 q2 hq1 hq2 hlt hqe hqne
          · exfalso
            have hq1e : q1 = n / 9 := by omega
            have hq2e : q2 = n % 9 := by omega
            rw [hq1e, hq2e] at hqe
            exact hEg hqe)
      constructor
      · intro h q1 q2 hq1 hq2 hqlt
        exact hres.1 h q1 q2 hq1 hq2 (by omega)
      · intro p' ds' dg' h
        obtain ⟨a1, a2, a3, a4, a5, a6, a7⟩ := hres.2 p' ds' dg' h
        exact ⟨a1, a2, by omega, a4, a5, a6,
          fun q1 q2 hq1 hq2 hqlt hqe hqne => a7 q1 q2 hq1 hq2 (by omega) hqe hqne⟩

/-- The row-major cell list as a `range'`-based scan, for use with the
fold invariant. -/
theorem allCells_eq_range' :
    allCells = (List.range' 0 81).map (fun k => (k / 9, k % 9)) := by
  have h1 : allCells = (List.range 81).map (fun k => (k / 9, k % 9)) := rfl
  rw [h1, List.range_eq_range']

/-- If the selector returns nothing, the board has no empty cell. -/
theorem select_unassigned_variable_eq_none {b : Board}
    (h : select_unassigned_variable b = none) :
    ∀ r c, r < 9 → c < 9 → b.grid r c ≠ 0 := by
  intro r c hr hc
  rw [select_unassigned_variable, allCells_eq_range'] at h
  rcases hfold : mrvFold b ((List.range' 0 81).map fun k => (k / 9, k % 9)) none with _ | x
  · have hinv := (mrvFold_invariant b 81 0 none (by omega)
      (fun _ q1 q2 _ _ hlt => absurd hlt (by omega))
      (fun p ds dg hcon => Option.noConfusion hcon)).1 hfold
    exact hinv r c hr hc (by omega)
  · rw [hfold] at h
    simp at h

/-- If the selector returns a cell, it is an in-range empty cell that is
MRV + degree optimal (first seen winning ties) among all empty cells. -/
theorem select_unassigned_variable_eq_some {b : Board} {row col : Nat}
    (h : select_unassigned_variable b = some (row, col)) :
    row < 9 ∧ col < 9 ∧ b.grid row col = 0 ∧
      ∀ q1 q2, q1 < 9 → q2 < 9 → b.grid q1 q2 = 0 → (q1, q2) ≠ (row, col) →
        mrvBetter b (row, col) (q1, q2) := by
  rw [select_unassigned_variable, allCells_eq_range'] at h
  rcases hfold : mrvFold b ((List.range' 0 81).map fun k => (k / 9, k % 9)) none
    with _ | ⟨⟨p, ds, dg⟩⟩
  · rw [hfold] at h
    simp at h
  · rw [hfold] at h
    simp only [Option.map_some', Option.some.injEq] at h
    obtain ⟨a1, a2, a3, a4, a5, a6, a7⟩ := (mrvFold_invariant b 81 0 none (by omega)
      (fun _ q1 q2 _ _ hlt => absurd hlt (by omega))
      (fun p' ds' dg' hcon => Option.noConfusion hcon)).2 p ds dg hfold
    rw [h] at a1 a2 a4 a7
    exact ⟨a1, a2, a4, fun q1 q2 hq1 hq2 hqe hqne =>
      a7 q1 q2 hq1 hq2 (by omega) hqe hqne⟩

/-- Projection of a literal search result. -/
@[simp] theorem SearchResult.mk_solved (x : Bool) (s : KropkiSolver) (b : Board) :
    (SearchResult.mk x s b).solved = x := rfl

/-- Projection of a literal search result. -/
@[simp] theorem SearchResult.mk_solver (x : Bool) (s : KropkiSolver) (b : Board) :
    (SearchResult.mk x s b).solver = s := rfl

/-- Projection of a literal search result. -/
@[simp] theorem SearchResult.mk_board (x : Bool) (s : KropkiSolver) (b : Board) :
    (SearchResult.mk x s b).board = b := rfl


/-- Projection of a literal solver state. -/
@[simp] theorem KropkiSolver.mk_fc_proj (f : Bool) (a k : Nat) :
    (KropkiSolver.mk f a k).use_forward_checking = f := rfl

/-- Projection of a literal solver state. -/
@[simp] theorem KropkiSolver.mk_assignments_proj (f : Bool) (a k : Nat) :
    (KropkiSolver.mk f a k).assignments = a := rfl

/-- Projection of a literal solver state. -/
@[simp] theorem KropkiSolver.mk_backtracks_proj (f : Bool) (a k : Nat) :
    (KropkiSolver.mk f a k).backtracks = k := rfl

/-- Loop step: a candidate failing the re-verification is skipped. -/
theorem tryValues_guard_false {recurse : KropkiSolver → Board → SearchResult}
    {row col v : Nat} {vs : List Nat} {s : KropkiSolver} {b : Board}
    (hg : (is_valid_sudoku_move b row col v && is_valid_dot_move b row col v) = false) :
    tryValues recurse row col (v :: vs) s b = tryValues recurse row col vs s b := by
  rw [tryValues]
  simp [hg]

/-- Loop step: the candidate is assigned but inference fails, so the
assignment is undone (one backtrack counted) and the loop continues. -/
theorem tryValues_io_false {recurse : KropkiSolver → Board → SearchResult}
    {row col v : Nat} {vs : List Nat} {s : KropkiSolver} {b : Board}
    (hg : (is_valid_sudoku_move b row col v && is_valid_dot_move b row col v) = true)
    (hio : (if s.use_forward_checking then
        KropkiSolver.inference { s with assignments := s.assignments + 1 }
          (b.setValue row col v) row col else true) = false) :
    tryValues recurse row col (v :: vs) s b =
      tryValues recurse row col vs
        { use_forward_checking := s.use_forward_checking, assignments := s.assignments + 1,
          backtracks := s.backtracks + 1 }
        ((b.setValue row col v).setValue row col EMPTY_CELL) := by
  rw [tryValues]
  simp [hg, hio]

/-- Loop step: the candidate is assigned, inference passes, and the
recursive call succeeds — success propagates. -/
theorem tryValues_rec_solved {recurse : KropkiSolver → Board → SearchResult}
    {row col v : Nat} {vs : List Nat} {s : KropkiSolver} {b : Board}
    (hg : (is_valid_sudoku_move b row col v && is_valid_dot_move b row col v) = true)
    (hio : (if s.use_forward_checking then
        KropkiSolver.inference { s with assignments := s.assignments + 1 }
          (b.setValue row col v) row col else true) = true)
    (hsv : (recurse { s with assignments := s.assignments + 1 } (b.setValue row col v)).solved = true) :
    tryValues recurse row col (v :: vs) s b =
      ⟨true, (recurse { s with assignments := s.assignments + 1 } (b.setValue row col v)).solver,
        (recurse { s with assignments := s.assignments + 1 } (b.setValue row col v)).board⟩ := by
  rw [tryValues]
  simp [hg, hio, hsv]

/-- Loop step: the candidate is assigned, inference passes, but the
recursive call fails — the assignment is undone (one backtrack counted)
and the loop continues. -/
theorem tryValues_rec_unsolved {recurse : KropkiSolver → Board → SearchResult}
    {row col v : Nat} {vs : List Nat} {s : KropkiSolver} {b : Board}
    (hg : (is_valid_sudoku_move b row col v && is_valid_dot_move b row col v) = true)
    (hio : (if s.use_forward_checking then
        KropkiSolver.inference { s with assignments := s.assignments + 1 }
          (b.setValue row col v) row col else true) = true)
    (hsv : (recurse { s with assignments := s.assignments + 1 } (b.setValue row col v)).solved = false) :
    tryValues recurse row col (v :: vs) s b =
      tryValues recurse row col vs
        { (recurse { s with assignments := s.assignments + 1 } (b.setValue row col v)).solver with
            backtracks := (recurse { s with assignments := s.assignments + 1 }
              (b.setValue row col v)).solver.backtracks + 1 }
        ((recurse { s with assignments := s.assignments + 1 }
            (b.setValue row col v)).board.setValue row col EMPTY_CELL) := by
  rw [tryValues]
  simp [hg, hio, hsv]

/-- If every failing recursive call restores its board, a failing value
loop restores the board it started from. -/
theorem tryValues_frame {recurse : KropkiSolver → Board → SearchResult} {row col : Nat}
    (hrec : ∀ s' b', (recurse s' b').solved = false → (recurse s' b').board = b')
    (vs : List Nat) :
    ∀ (s : KropkiSolver) (b : Board), b.grid row col = EMPTY_CELL →
      (tryValues recurse row col vs s b).solved = false →
      (tryValues recurse row col vs s b).board = b := by
  induction vs with
  | nil => intro s b hcell h; rfl
  | cons v vs ih =>
    intro s b hcell h
    by_cases hg : (is_valid_sudoku_move b row col v && is_valid_dot_move b row col v) = true
    · by_cases hio : (if s.use_forward_checking then
          KropkiSolver.inference { s with assignments := s.assignments + 1 }
            (b.setValue row col v) row col else true) = true
      · by_cases hsv : (recurse { s with assignments := s.assignments + 1 }
            (b.setValue row col v)).solved = true
        · rw [tryValues_rec_solved hg hio hsv] at h
          simp at h
        · rw [Bool.not_eq_true] at hsv
          rw [tryValues_rec_unsolved hg hio hsv] at h ⊢
          rw [hrec _ _ hsv, Board.setValue_cancel v hcell] at h ⊢
          exact ih _ b hcell h
      · rw [Bool.not_eq_true] at hio
        rw [tryValues_io_false hg hio] at h ⊢
        rw [Board.setValue_cancel v hcell] at h ⊢
        exact ih _ b hcell h
    · rw [Bool.not_eq_true] at hg
      rw [tryValues_guard_false hg] at h ⊢
      exact ih s b hcell h

/-- A failing `backtrack` call leaves the board exactly as it found it. -/
theorem backtrack_frame (fuel : Nat) :
    ∀ (s : KropkiSolver) (b : Board),
      (backtrack fuel s b).solved = false → (backtrack fuel s b).board = b := by
  induction fuel with
  | zero => intro s b _; rfl
  | succ fuel ih =>
    intro s b h
    by_cases hc : b.is_complete = true
    · have hstep : backtrack (fuel + 1) s b = ⟨true, s, b⟩ := by
        rw [backtrack, if_pos hc]
      rw [hstep] at h
      simp at h
    · rcases hsel : select_unassigned_variable b with _ | ⟨⟨row, col⟩⟩
      · have hstep : backtrack (fuel + 1) s b = ⟨false, s, b⟩ := by
          rw [backtrack, if_neg hc, hsel]
        rw [hstep]
      · have hstep : backtrack (fuel + 1) s b =
            tryValues (backtrack fuel) row col
              (order_domain_values (get_valid_values b row col)) s b := by
          rw [backtrack, if_neg hc, hsel]
        rw [hstep] at h ⊢
        obtain ⟨hr, hcc, hcell, -⟩ := select_unassigned_variable_eq_some hsel
        exact tryValues_frame ih _ s b hcell h

/-- A successful value loop hands back a complete board, provided every
successful recursive call does. -/
theorem tryValues_complete {recurse : KropkiSolver → Board → SearchResult} {row col : Nat}
    (hrec : ∀ s' b', (recurse s' b').solved = true → (recurse s' b').board.is_complete = true)
    (vs : List Nat) :
    ∀ (s : KropkiSolver) (b : Board),
      (tryValues recurse row col vs s b).solved = true →
      (tryValues recurse row col vs s b).board.is_complete = true := by
  induction vs with
  | nil =>
    intro s b h
    rw [tryValues] at h
    simp at h
  | cons v vs ih =>
    intro s b h
    by_cases hg : (is_valid_sudoku_move b row col v && is_valid_dot_move b row col v) = true
    · by_cases hio : (if s.use_forward_checking then
          KropkiSolver.inference { s with assignments := s.assignments + 1 }
            (b.setValue row col v) row col else true) = true
      · by_cases hsv : (recurse { s with assignments := s.assignments + 1 }
            (b.setValue row col v)).solved = true
        · rw [tryValues_rec_solved hg hio hsv]
          exact hrec _ _ hsv
        · rw [Bool.not_eq_true] at hsv
          rw [tryValues_rec_unsolved hg hio hsv] at h ⊢
          exact ih _ _ h
      · rw [Bool.not_eq_true] at hio
        rw [tryValues_io_false hg hio] at h ⊢
        exact ih _ _ h
    · rw [Bool.not_eq_true] at hg
      rw [tryValues_guard_false hg] at h ⊢
      exact ih s b h

/-- A successful `backtrack` call hands back a complete board. -/
theorem backtrack_complete (fuel : Nat) :
    ∀ (s : KropkiSolver) (b : Board),
      (backtrack fuel s b).solved = true → (backtrack fuel s b).board.is_complete = true := by
  induction fuel with
  | zero => intro s b h; exact h
  | succ fuel ih =>
    intro s b h
    by_cases hc : b.is_complete = true
    · have hstep : backtrack (fuel + 1) s b = ⟨true, s, b⟩ := by
        rw [backtrack, if_pos hc]
      rw [hstep]
      exact hc
    · rcases hsel : select_unassigned_variable b with _ | ⟨⟨row, col⟩⟩
      · have hstep : backtrack (fuel + 1) s b = ⟨false, s, b⟩ := by
          rw [backtrack, if_neg hc, hsel]
        rw [hstep] at h
        simp at h
      · have hstep : backtrack (fuel + 1) s b =
            tryValues (backtrack fuel) row col
              (order_domain_values (get_valid_values b row col)) s b := by
          rw [backtrack, if_neg hc, hsel]
        rw [hstep] at h ⊢
        exact tryValues_complete ih _ s b h

/-- The value loop never decreases either counter. -/
theorem tryValues_counters {recurse : KropkiSolver → Board → SearchResult} {row col : Nat}
    (hrec : ∀ s' b', s'.assignments ≤ (recurse s' b').solver.assignments ∧
        s'.backtracks ≤ (recurse s' b').solver.backtracks)
    (vs : List Nat) :
    ∀ (s : KropkiSolver) (b : Board),
      s.assignments ≤ (tryValues recurse row col vs s b).solver.assignments ∧
      s.backtracks ≤ (tryValues recurse row col vs s b).solver.backtracks := by
  induction vs with
  | nil =>
    intro s b
    rw [tryValues]
    simp
  | cons v vs ih =>
    intro s b
    by_cases hg : (is_valid_sudoku_move b row col v && is_valid_dot_move b row col v) = true
    · by_cases hio : (if s.use_forward_checking then
          KropkiSolver.inference { s with assignments := s.assignments + 1 }
            (b.setValue row col v) row col else true) = true
      · by_cases hsv : (recurse { s with assignments := s.assignments + 1 }
            (b.setValue row col v)).solved = true
        · rw [tryValues_rec_solved hg hio hsv]
          have h1 := hrec { s with assignments := s.assignments + 1 } (b.setValue row col v)
          simp at h1 ⊢
          omega
        · rw [Bool.not_eq_true] at hsv
          rw [tryValues_rec_unsolved hg hio hsv]
          have h1 := hrec { s with assignments := s.assignments + 1 } (b.setValue row col v)
          have h2 := ih
            { (recurse { s with assignments := s.assignments + 1 } (b.setValue row col v)).solver with
                backtracks := (recurse { s with assignments := s.assignments + 1 }
                  (b.setValue row col v)).solver.backtracks + 1 }
            ((recurse { s with assignments := s.assignments + 1 }
                (b.setValue row col v)).board.setValue row col EMPTY_CELL)
          simp at h1 h2 ⊢
          omega
      · rw [Bool.not_eq_true] at hio
        rw [tryValues_io_false hg hio]
        have h2 := ih
          { use_forward_checking := s.use_forward_checking, assignments := s.assignments + 1,
            backtracks := s.backtracks + 1 }
          ((b.setValue row col v).setValue row col EMPTY_CELL)
        simp at h2 ⊢
        omega
    · rw [Bool.not_eq_true] at hg
      rw [tryValues_guard_false hg]
      exact ih s b

/-- `backtrack` never decreases either counter. -/
theorem backtrack_counters (fuel : Nat) :
    ∀ (s : KropkiSolver) (b : Board),
      s.assignments ≤ (backtrack fuel s b).solver.assignments ∧
      s.backtracks ≤ (backtrack fuel s b).solver.backtracks := by
  induction fuel with
  | zero =>
    intro s b
    exact ⟨Nat.le.refl, Nat.le.refl⟩
  | succ fuel ih =>
    intro s b
    by_cases hc : b.is_complete = true
    · have hstep : backtrack (fuel + 1) s b = ⟨true, s, b⟩ := by
        rw [backtrack, if_pos hc]
      rw [hstep]
      simp
    · rcases hsel : select_unassigned_variable b with _ | ⟨⟨row, col⟩⟩
      · have hstep : backtrack (fuel + 1) s b = ⟨false, s, b⟩ := by
          rw [backtrack, if_neg hc, hsel]
        rw [hstep]
        simp
      · have hstep : backtrack (fuel + 1) s b =
            tryValues (backtrack fuel) row col
              (order_domain_values (get_valid_values b row col)) s b := by
          rw [backtrack, if_neg hc, hsel]
        rw [hstep]
        exact tryValues_counters ih _ s b

/-- A successful value loop extends the board it was given, and gives
every formerly-empty cell a digit 1-9 that passed both checks against
that entry board (domain monotonicity carries the checks back from the
assignment-time board). -/
theorem tryValues_success_extends {recurse : KropkiSolver → Board → SearchResult}
    {row col : Nat}
    (hrec_frame : ∀ s' b', (recurse s' b').solved = false → (recurse s' b').board = b')
    (hrec_ext : ∀ s' b', (recurse s' b').solved = true →
      Extends b' (recurse s' b').board ∧
      ∀ r c, r < 9 → c < 9 → b'.grid r c = EMPTY_CELL →
        1 ≤ (recurse s' b').board.grid r c ∧ (recurse s' b').board.grid r c ≤ 9 ∧
        is_valid_sudoku_move b' r c ((recurse s' b').board.grid r c) = true ∧
        is_valid_dot_move b' r c ((recurse s' b').board.grid r c) = true)
    (vs : List Nat) :
    ∀ (s : KropkiSolver) (b : Board), b.grid row col = EMPTY_CELL →
      (∀ v ∈ vs, 1 ≤ v ∧ v ≤ 9) →
      (tryValues recurse row col vs s b).solved = true →
      Extends b (tryValues recurse row col vs s b).board ∧
      ∀ r c, r < 9 → c < 9 → b.grid r c = EMPTY_CELL →
        1 ≤ (tryValues recurse row col vs s b).board.grid r c ∧
        (tryValues recurse row col vs s b).board.grid r c ≤ 9 ∧
        is_valid_sudoku_move b r c ((tryValues recurse row col vs s b).board.grid r c) = true ∧
        is_valid_dot_move b r c ((tryValues recurse row col vs s b).board.grid r c) = true := by
  induction vs with
  | nil =>
    intro s b hcell hvs h
    rw [tryValues] at h
    simp at h
  | cons v vs ih =>
    intro s b hcell hvs h
    by_cases hg : (is_valid_sudoku_move b row col v && is_valid_dot_move b row col v) = true
    · by_cases hio : (if s.use_forward_checking then
          KropkiSolver.inference { s with assignments := s.assignments + 1 }
            (b.setValue row col v) row col else true) = true
      · by_cases hsv : (recurse { s with assignments := s.assignments + 1 }
            (b.setValue row col v)).solved = true
        · rw [tryValues_rec_solved hg hio hsv] at h ⊢
          simp only [SearchResult.mk_board]
          obtain ⟨hv1, hv9⟩ := hvs v (List.mem_cons_self v vs)
          have hvne : v ≠ EMPTY_CELL := by
            rw [EMPTY_CELL_eq]
            omega
          have hextb1 : Extends b (b.setValue row col v) := Extends.setValue v hcell
          obtain ⟨hext1, hvals1⟩ := hrec_ext _ _ hsv
          refine ⟨Extends.trans hextb1 hext1, ?_⟩
          intro r cc hr9 hc9 hrce
          by_cases hrc : r = row ∧ cc = col
          · obtain ⟨rfl, rfl⟩ := hrc
            have hb1v : (b.setValue r cc v).grid r cc = v := Board.setValue_grid_self b r cc v
            have hbfv : (recurse { s with assignments := s.assignments + 1 }
                (b.setValue r cc v)).board.grid r cc = v := by
              rw [hext1.1 r cc (by rw [hb1v]; exact hvne), hb1v]
            rw [hbfv]
            have hg' := hg
            rw [Bool.and_eq_true] at hg'
            exact ⟨hv1, hv9, hg'.1, hg'.2⟩
          · have hb1e : (b.setValue row col v).grid r cc = EMPTY_CELL := by
              rw [Board.setValue_grid_ne b v hrc]
              exact hrce
            obtain ⟨h1, h2, h3, h4⟩ := hvals1 r cc hr9 hc9 hb1e
            exact ⟨h1, h2, is_valid_sudoku_move_mono hextb1 h3,
              is_valid_dot_move_mono hextb1 h4⟩
        · rw [Bool.not_eq_true] at hsv
          rw [tryValues_rec_unsolved hg hio hsv] at h ⊢
          rw [hrec_frame _ _ hsv, Board.setValue_cancel v hcell] at h ⊢
          exact ih _ b hcell (fun w hw => hvs w (List.mem_cons_of_mem v hw)) h
      · rw [Bool.not_eq_true] at hio
        rw [tryValues_io_false hg hio] at h ⊢
        rw [Board.setValue_cancel v hcell] at h ⊢
        exact ih _ b hcell (fun w hw => hvs w (List.mem_cons_of_mem v hw)) h
    · rw [Bool.not_eq_true] at hg
      rw [tryValues_guard_false hg] at h ⊢
      exact ih s b hcell (fun w hw => hvs w (List.mem_cons_of_mem v hw)) h

/-- A successful `backtrack` call extends the board it was given, and
every newly filled value passed both checks against the entry board. -/
theorem backtrack_success_extends (fuel : Nat) :
    ∀ (s : KropkiSolver) (b : Board), (backtrack fuel s b).solved = true →
      Extends b (backtrack fuel s b).board ∧
      ∀ r c, r < 9 → c < 9 → b.grid r c = EMPTY_CELL →
        1 ≤ (backtrack fuel s b).board.grid r c ∧
        (backtrack fuel s b).board.grid r c ≤ 9 ∧
        is_valid_sudoku_move b r c ((backtrack fuel s b).board.grid r c) = true ∧
        is_valid_dot_move b r c ((backtrack fuel s b).board.grid r c) = true := by
  induction fuel with
  | zero =>
    intro s b h
    refine ⟨Extends.rfl b, ?_⟩
    intro r c hr hc hrce
    exact absurd hrce (by
      have := is_complete_iff.mp h r c hr hc
      simpa using this)
  | succ fuel ih =>
    intro s b h
    by_cases hcomp : b.is_complete = true
    · have hstep : backtrack (fuel + 1) s b = ⟨true, s, b⟩ := by
        rw [backtrack, if_pos hcomp]
      rw [hstep]
      refine ⟨Extends.rfl b, ?_⟩
      intro r c hr hc hrce
      exact absurd hrce (by
        have := is_complete_iff.mp hcomp r c hr hc
        simpa using this)
    · rcases hsel : select_unassigned_variable b with _ | ⟨⟨row, col⟩⟩
      · have hstep : backtrack (fuel + 1) s b = ⟨false, s, b⟩ := by
          rw [backtrack, if_neg hcomp, hsel]
        rw [hstep] at h
        simp at h
      · have hstep : backtrack (fuel + 1) s b =
            tryValues (backtrack fuel) row col
              (order_domain_values (get_valid_values b row col)) s b := by
          rw [backtrack, if_neg hcomp, hsel]
        rw [hstep] at h ⊢
        obtain ⟨hr, hcc, hcell, -⟩ := select_unassigned_variable_eq_some hsel
        apply tryValues_success_extends (backtrack_frame fuel) ih _ s b hcell ?_ h
        intro w hw
        rw [order_domain_values_get_valid_values] at hw
        have := mem_get_valid_values.mp hw
        exact ⟨this.2.1, this.2.2.1⟩

/-- If some in-range empty cell has an empty domain, the search cannot
succeed: any successful run would have to give that cell a value from
that domain. -/
theorem backtrack_fails_of_empty_domain (fuel : Nat) {s : KropkiSolver} {b : Board}
    {r c : Nat} (hr : r < 9) (hc : c < 9) (hempty : b.grid r c = EMPTY_CELL)
    (hdom : get_valid_values b r c = []) :
    (backtrack fuel s b).solved = false := by
  by_contra h
  rw [Bool.not_eq_false] at h
  obtain ⟨-, hvals⟩ := backtrack_success_extends fuel s b h
  obtain ⟨h1, h2, h3, h4⟩ := hvals r c hr hc hempty
  have hmem : (backtrack fuel s b).board.grid r c ∈ get_valid_values b r c :=
    mem_get_valid_values.mpr ⟨hempty, h1, h2, h3, h4⟩
  rw [hdom] at hmem
  cases hmem

/-- At any empty cell of a board that a full solution extends, the
solution's value passes both checks: any conflict would contradict the
solution's all-different or dot properties. -/
theorem solution_value_valid {b : Board} {g : Nat → Nat → Nat}
    (hsol : SolutionGrid b g) (hext : ExtendsGrid b g) {r c : Nat}
    (hr : r < 9) (hc : c < 9) (hempty : b.grid r c = EMPTY_CELL) :
    is_valid_sudoku_move b r c (g r c) = true ∧ is_valid_dot_move b r c (g r c) = true := by
  obtain ⟨hrange, hrow, hcol, hblock, hhdot, hvdot⟩ := hsol
  simp only [GRID_SIZE_eq, BLOCK_SIZE_eq, MIN_VALUE_eq,
    MAX_VALUE_eq] at hrange hrow hcol hblock hhdot hvdot
  obtain ⟨hg1, hg9⟩ := hrange r c hr hc
  have hne : g r c ≠ EMPTY_CELL := by
    rw [EMPTY_CELL_eq]
    omega
  rw [EMPTY_CELL_eq] at hempty
  constructor
  · rw [is_valid_sudoku_move_iff hne]
    refine ⟨fun hcon => ?_, fun hcon => ?_, fun hcon => ?_⟩
    · obtain ⟨j, hj, hjne, hjeq⟩ := hcon
      have hjc : j ≠ c := fun hjc => hjne (hjc ▸ hempty)
      have : g r j = g r c := by
        rw [hext r j hr hj hjne, hjeq]
      exact hrow r j c hr hj hc hjc this
    · obtain ⟨i, hi, hine, hieq⟩ := hcon
      have hirr : i ≠ r := fun hir => hine (hir ▸ hempty)
      have : g i c = g r c := by
        rw [hext i c hi hc hine, hieq]
      exact hcol c i r hc hi hr hirr this
    · obtain ⟨i, hi, j, hj, hijne, hijeq⟩ := hcon
      have hr' : 3 * (r / 3) + i < 9 := by omega
      have hc' : 3 * (c / 3) + j < 9 := by omega
      have hneq : (3 * (r / 3) + i, 3 * (c / 3) + j) ≠ (r, c) := by
        intro hcon2
        rw [Prod.mk.injEq] at hcon2
        rw [hcon2.1, hcon2.2] at hijne
        exact hijne hempty
      have : g (3 * (r / 3) + i) (3 * (c / 3) + j) = g r c := by
        rw [hext _ _ hr' hc' hijne, hijeq]
      exact hblock (3 * (r / 3) + i) (3 * (c / 3) + j) r c hr' hc' hr hc
        (by omega) (by omega) hneq this
  · rw [is_valid_dot_move_iff hne]
    refine ⟨fun hcon => ?_, fun hcon => ?_, fun hcon => ?_, fun hcon => ?_⟩
    · obtain ⟨h0c, hnz⟩ := hcon
      have hlt : c - 1 < 9 := by omega
      have heq1 : c - 1 + 1 = c := by omega
      have hdotat : b.hDotAt r (c - 1) = b.horizontal_dots r (c - 1) := by
        rw [Board.hDotAt, if_pos (by simp; omega)]
      rw [hdotat, ← hext r (c - 1) hr hlt hnz, pairOk_symm]
      have := hhdot r (c - 1) hr (by omega)
      rw [heq1] at this
      exact this
    · obtain ⟨hclt, hnz⟩ := hcon
      have hdotat : b.hDotAt r c = b.horizontal_dots r c := by
        rw [Board.hDotAt, if_pos (by simp; omega)]
      rw [hdotat, ← hext r (c + 1) hr (by simp only [GRID_SIZE_eq]; omega) hnz]
      exact hhdot r c hr (by omega)
    · obtain ⟨h0r, hnz⟩ := hcon
      have hlt : r - 1 < 9 := by omega
      have heq1 : r - 1 + 1 = r := by omega
      have hdotat : b.vDotAt (r - 1) c = b.vertical_dots (r - 1) c := by
        rw [Board.vDotAt, if_pos (by simp; omega)]
      rw [hdotat, ← hext (r - 1) c hlt hc hnz, pairOk_symm]
      have := hvdot (r - 1) c (by omega) hc
      rw [heq1] at this
      exact this
    · obtain ⟨hrlt, hnz⟩ := hcon
      have hdotat : b.vDotAt r c = b.vertical_dots r c := by
        rw [Board.vDotAt, if_pos (by simp; omega)]
      rw [hdotat, ← hext (r + 1) c (by simp only [GRID_SIZE_eq]; omega) hc hnz]
      exact hvdot r c (by omega) hc

/-- If every in-range empty cell has a nonempty domain, the inference
step succeeds (it only ever tests domains of empty cells). -/
theorem inference_true_of_domains {s : KropkiSolver} {b : Board} {row col : Nat}
    (hr : row < 9) (hcol : col < 9)
    (h : ∀ r c, r < 9 → c < 9 → b.grid r c = EMPTY_CELL → get_valid_values b r c ≠ []) :
    s.inference b row col = true := by
  rw [KropkiSolver.inference]
  by_cases hfc : s.use_forward_checking = false
  · rw [if_pos hfc]
  · rw [if_neg hfc, Bool.and_eq_true]
    simp only [GRID_SIZE_eq, BLOCK_SIZE_eq, decide_eq_true_eq]
    constructor
    · intro i hi
      constructor
      · intro hne he hlen
        have hemp : b.grid row i = EMPTY_CELL := by
          rw [Board.isEmpty, decide_eq_true_eq] at he
          exact he
        exact h row i hr hi hemp (List.length_eq_zero.mp hlen)
      · intro hne he hlen
        have hemp : b.grid i col = EMPTY_CELL := by
          rw [Board.isEmpty, decide_eq_true_eq] at he
          exact he
        exact h i col hi hcol hemp (List.length_eq_zero.mp hlen)
    · intro i hi j hj hne he hlen
      have hemp : b.grid (3 * (row / 3) + i) (3 * (col / 3) + j) = EMPTY_CELL := by
        rw [Board.isEmpty, decide_eq_true_eq] at he
        exact he
      exact h (3 * (row / 3) + i) (3 * (col / 3) + j) (by omega) (by omega) hemp
        (List.length_eq_zero.mp hlen)

/-- If the inference step fails, some in-range empty cell's domain is
empty. -/
theorem inference_false_elim {s : KropkiSolver} {b : Board} {row col : Nat}
    (hr : row < 9) (hcol : col < 9) (h : s.inference b row col = false) :
    ∃ r c, r < 9 ∧ c < 9 ∧ b.grid r c = EMPTY_CELL ∧ get_valid_values b r c = [] := by
  by_contra hcon
  push_neg at hcon
  rw [inference_true_of_domains hr hcol hcon] at h
  cases h

/-- If some candidate in the list passes the re-verification, passes
inference however the counters stand, and makes the recursion succeed,
then the value loop succeeds (earlier failing candidates restore the
board and the loop moves on). -/
theorem tryValues_success {recurse : KropkiSolver → Board → SearchResult} {row col : Nat}
    {b : Board} {w : Nat}
    (hrec_frame : ∀ s' b', (recurse s' b').solved = false → (recurse s' b').board = b')
    (hcell : b.grid row col = EMPTY_CELL)
    (hw_guard : (is_valid_sudoku_move b row col w && is_valid_dot_move b row col w) = true)
    (hinf : ∀ s' : KropkiSolver, s'.inference (b.setValue row col w) row col = true)
    (hw_rec : ∀ s' : KropkiSolver, (recurse s' (b.setValue row col w)).solved = true) :
    ∀ (vs : List Nat), w ∈ vs → ∀ (s : KropkiSolver),
      (tryValues recurse row col vs s b).solved = true := by
  intro vs
  induction vs with
  | nil => intro hw; cases hw
  | cons v vs ih =>
    intro hw s
    by_cases hg : (is_valid_sudoku_move b row col v && is_valid_dot_move b row col v) = true
    · by_cases hio : (if s.use_forward_checking then
          KropkiSolver.inference { s with assignments := s.assignments + 1 }
            (b.setValue row col v) row col else true) = true
      · by_cases hsv : (recurse { s with assignments := s.assignments + 1 }
            (b.setValue row col v)).solved = true
        · rw [tryValues_rec_solved hg hio hsv]
        · rw [Bool.not_eq_true] at hsv
          rw [tryValues_rec_unsolved hg hio hsv]
          rw [hrec_frame _ _ hsv, Board.setValue_cancel v hcell]
          rcases List.mem_cons.mp hw with rfl | hwt
          · exfalso
            have hcon := hw_rec { s with assignments := s.assignments + 1 }
            rw [hsv] at hcon
            cases hcon
          · exact ih hwt _
      · rw [Bool.not_eq_true] at hio
        rw [tryValues_io_false hg hio]
        rw [Board.setValue_cancel v hcell]
        rcases List.mem_cons.mp hw with rfl | hwt
        · exfalso
          by_cases hfc : s.use_forward_checking = true
          · rw [if_pos hfc] at hio
            have hcon := hinf { s with assignments := s.assignments + 1 }
            rw [hio] at hcon
            cases hcon
          · rw [if_neg hfc] at hio
            cases hio
        · exact ih hwt _
    · rw [Bool.not_eq_true] at hg
      rw [tryValues_guard_false hg]
      rcases List.mem_cons.mp hw with rfl | hwt
      · rw [hw_guard] at hg
        cases hg
      · exact ih hwt _

/-- Completeness: if a full solution extends the board and the fuel
covers the number of empty cells, `backtrack` succeeds. -/
theorem backtrack_of_solution (fuel : Nat) :
    ∀ (s : KropkiSolver) (b : Board) (g : Nat → Nat → Nat),
      emptyCount b ≤ fuel → SolutionGrid b g → ExtendsGrid b g →
      (backtrack fuel s b).solved = true := by
  induction fuel with
  | zero =>
    intro s b g hfuel hsol hext
    exact emptyCount_eq_zero_iff.mp (by omega)
  | succ fuel ih =>
    intro s b g hfuel hsol hext
    by_cases hcomp : b.is_complete = true
    · have hstep : backtrack (fuel + 1) s b = ⟨true, s, b⟩ := by
        rw [backtrack, if_pos hcomp]
      rw [hstep]
    · rcases hsel : select_unassigned_variable b with _ | ⟨⟨row, col⟩⟩
      · exfalso
        have hempty := select_unassigned_variable_eq_none hsel
        have hcomp' : ¬ ∀ r c, r < 9 → c < 9 → b.grid r c ≠ 0 := fun hcon =>
          hcomp (is_complete_iff.mpr hcon)
        push_neg at hcomp'
        obtain ⟨r, c, hr, hc, hval⟩ := hcomp'
        exact hempty r c hr hc hval
      · have hstep : backtrack (fuel + 1) s b =
            tryValues (backtrack fuel) row col
              (order_domain_values (get_valid_values b row col)) s b := by
          rw [backtrack, if_neg hcomp, hsel]
        rw [hstep]
        obtain ⟨hr, hcc, hcell, -⟩ := select_unassigned_variable_eq_some hsel
        have hcell' : b.grid row col = EMPTY_CELL := hcell
        obtain ⟨hs1, hs2⟩ := solution_value_valid hsol hext hr hcc hcell'
        have hrange : 1 ≤ g row col ∧ g row col ≤ 9 := hsol.1 row col hr hcc
        have hwne : g row col ≠ EMPTY_CELL := by
          rw [EMPTY_CELL_eq]
          omega
        have hwmem : g row col ∈ get_valid_values b row col :=
          mem_get_valid_values.mpr ⟨hcell', hrange.1, hrange.2, hs1, hs2⟩
        have hguard : (is_valid_sudoku_move b row col (g row col) &&
            is_valid_dot_move b row col (g row col)) = true := by
          rw [hs1, hs2]
          rfl
        have hb1ext : ExtendsGrid (b.setValue row col (g row col)) g := by
          intro r c hr9 hc9 hne
          by_cases hrc : r = row ∧ c = col
          · obtain ⟨rfl, rfl⟩ := hrc
            rw [Board.setValue_grid_self]
          · rw [Board.setValue_grid_ne b _ hrc] at hne ⊢
            exact hext r c hr9 hc9 hne
        have hb1sol : SolutionGrid (b.setValue row col (g row col)) g := by
          obtain ⟨a1, a2, a3, a4, a5, a6⟩ := hsol
          refine ⟨a1, a2, a3, a4, ?_, ?_⟩
          · intro r c hr9 hc9
            rw [Board.setValue_hdots]
            exact a5 r c hr9 hc9
          · intro r c hr9 hc9
            rw [Board.setValue_vdots]
            exact a6 r c hr9 hc9
        have hinf : ∀ s' : KropkiSolver,
            s'.inference (b.setValue row col (g row col)) row col = true := by
          intro s'
          apply inference_true_of_domains hr hcc
          intro r c hr9 hc9 hemp
          have hmem : g r c ∈ get_valid_values (b.setValue row col (g row col)) r c := by
            obtain ⟨t1, t2⟩ := solution_value_valid hb1sol hb1ext hr9 hc9 hemp
            have hrange2 : 1 ≤ g r c ∧ g r c ≤ 9 := hb1sol.1 r c hr9 hc9
            exact mem_get_valid_values.mpr ⟨hemp, hrange2.1, hrange2.2, t1, t2⟩
          intro hcon
          rw [hcon] at hmem
          cases hmem
        have hw_rec : ∀ s' : KropkiSolver,
            (backtrack fuel s' (b.setValue row col (g row col))).solved = true := by
          intro s'
          apply ih s' _ g ?_ hb1sol hb1ext
          have hdec := emptyCount_setValue hr hcc hcell' hwne
          omega
        apply tryValues_success (backtrack_frame fuel) hcell' hguard hinf hw_rec
        rw [order_domain_values_get_valid_values]
        exact hwmem

/-- The loop's returned flag and board do not depend on the solver state
(configuration or counters): when one side's forward checking prunes a
branch, that branch fails anyway on the other side, and both sides then
continue from the same restored board. -/
theorem tryValues_result_board_eq {recurse : KropkiSolver → Board → SearchResult}
    {row col : Nat} (hr : row < 9) (hcc : col < 9)
    (hrec_frame : ∀ s' b', (recurse s' b').solved = false → (recurse s' b').board = b')
    (hrec_eq : ∀ s1 s2 b', (recurse s1 b').solved = (recurse s2 b').solved ∧
        (recurse s1 b').board = (recurse s2 b').board)
    (hrec_fail : ∀ (s' : KropkiSolver) (b' : Board),
        (∃ r c, r < 9 ∧ c < 9 ∧ b'.grid r c = EMPTY_CELL ∧ get_valid_values b' r c = []) →
        (recurse s' b').solved = false)
    (vs : List Nat) :
    ∀ (b : Board), b.grid row col = EMPTY_CELL → ∀ (s1 s2 : KropkiSolver),
      (tryValues recurse row col vs s1 b).solved = (tryValues recurse row col vs s2 b).solved ∧
      (tryValues recurse row col vs s1 b).board = (tryValues recurse row col vs s2 b).board := by
  induction vs with
  | nil => intro b hcell s1 s2; exact ⟨rfl, rfl⟩
  | cons v vs ih =>
    intro b hcell s1 s2
    by_cases hg : (is_valid_sudoku_move b row col v && is_valid_dot_move b row col v) = true
    · by_cases hio1 : (if s1.use_forward_checking then
          KropkiSolver.inference { s1 with assignments := s1.assignments + 1 }
            (b.setValue row col v) row col else true) = true
      · by_cases hio2 : (if s2.use_forward_checking then
            KropkiSolver.inference { s2 with assignments := s2.assignments + 1 }
              (b.setValue row col v) row col else true) = true
        · have heq := hrec_eq { s1 with assignments := s1.assignments + 1 }
            { s2 with assignments := s2.assignments + 1 } (b.setValue row col v)
          by_cases hsv1 : (recurse { s1 with assignments := s1.assignments + 1 }
              (b.setValue row col v)).solved = true
          · have hsv2 : (recurse { s2 with assignments := s2.assignments + 1 }
                (b.setValue row col v)).solved = true := by
              rw [← heq.1]
              exact hsv1
            rw [tryValues_rec_solved hg hio1 hsv1, tryValues_rec_solved hg hio2 hsv2]
            exact ⟨rfl, heq.2⟩
          · rw [Bool.not_eq_true] at hsv1
            have hsv2 : (recurse { s2 with assignments := s2.assignments + 1 }
                (b.setValue row col v)).solved = false := by
              rw [← heq.1]
              exact hsv1
            rw [tryValues_rec_unsolved hg hio1 hsv1, tryValues_rec_unsolved hg hio2 hsv2]
            rw [hrec_frame _ _ hsv1, hrec_frame _ _ hsv2, Board.setValue_cancel v hcell]
            exact ih b hcell _ _
        · rw [Bool.not_eq_true] at hio2
          have hfc2 : s2.use_forward_checking = true := by
            by_contra hfc
            rw [if_neg hfc] at hio2
            cases hio2
          have hio2' := hio2
          rw [if_pos hfc2] at hio2'
          have hsv1 : (recurse { s1 with assignments := s1.assignments + 1 }
              (b.setValue row col v)).solved = false :=
            hrec_fail _ _ (inference_false_elim hr hcc hio2')
          rw [tryValues_rec_unsolved hg hio1 hsv1, tryValues_io_false hg hio2]
          rw [hrec_frame _ _ hsv1, Board.setValue_cancel v hcell]
          exact ih b hcell _ _
      · rw [Bool.not_eq_true] at hio1
        have hfc1 : s1.use_forward_checking = true := by
          by_contra hfc
          rw [if_neg hfc] at hio1
          cases hio1
        have hio1' := hio1
        rw [if_pos hfc1] at hio1'
        by_cases hio2 : (if s2.use_forward_checking then
            KropkiSolver.inference { s2 with assignments := s2.assignments + 1 }
              (b.setValue row col v) row col else true) = true
        · have hsv2 : (recurse { s2 with assignments := s2.assignments + 1 }
              (b.setValue row col v)).solved = false :=
            hrec_fail _ _ (inference_false_elim hr hcc hio1')
          rw [tryValues_io_false hg hio1, tryValues_rec_unsolved hg hio2 hsv2]
          rw [hrec_frame _ _ hsv2, Board.setValue_cancel v hcell]
          exact ih b hcell _ _
        · rw [Bool.not_eq_true] at hio2
          rw [tryValues_io_false hg hio1, tryValues_io_false hg hio2]
          rw [Board.setValue_cancel v hcell]
          exact ih b hcell _ _
    · rw [Bool.not_eq_true] at hg
      rw [tryValues_guard_false hg, tryValues_guard_false hg]
      exact ih b hcell s1 s2

/-- The `backtrack` flag and final board depend only on the board: any
two solver states — in particular forward checking on versus off — give
the same answer and the same board. -/
theorem backtrack_result_board_eq (fuel : Nat) :
    ∀ (b : Board) (s1 s2 : KropkiSolver),
      (backtrack fuel s1 b).solved = (backtrack fuel s2 b).solved ∧
      (backtrack fuel s1 b).board = (backtrack fuel s2 b).board := by
  induction fuel with
  | zero => intro b s1 s2; exact ⟨rfl, rfl⟩
  | succ fuel ih =>
    intro b s1 s2
    by_cases hcomp : b.is_complete = true
    · have h1 : backtrack (fuel + 1) s1 b = ⟨true, s1, b⟩ := by
        rw [backtrack, if_pos hcomp]
      have h2 : backtrack (fuel + 1) s2 b = ⟨true, s2, b⟩ := by
        rw [backtrack, if_pos hcomp]
      rw [h1, h2]
      exact ⟨rfl, rfl⟩
    · rcases hsel : select_unassigned_variable b with _ | ⟨⟨row, col⟩⟩
      · have h1 : backtrack (fuel + 1) s1 b = ⟨false, s1, b⟩ := by
          rw [backtrack, if_neg hcomp, hsel]
        have h2 : backtrack (fuel + 1) s2 b = ⟨false, s2, b⟩ := by
          rw [backtrack, if_neg hcomp, hsel]
        rw [h1, h2]
        exact ⟨rfl, rfl⟩
      · have h1 : backtrack (fuel + 1) s1 b =
            tryValues (backtrack fuel) row col
              (order_domain_values (get_valid_values b row col)) s1 b := by
          rw [backtrack, if_neg hcomp, hsel]
        have h2 : backtrack (fuel + 1) s2 b =
            tryValues (backtrack fuel) row col
              (order_domain_values (get_valid_values b row col)) s2 b := by
          rw [backtrack, if_neg hcomp, hsel]
        rw [h1, h2]
        obtain ⟨hr, hcc, hcell, -⟩ := select_unassigned_variable_eq_some hsel
        exact tryValues_result_board_eq hr hcc (backtrack_frame fuel)
          (fun a a' c => ih c a a')
          (fun s' b' hex => by
            obtain ⟨r0, c0, h1', h2', h3', h4'⟩ := hex
            exact backtrack_fails_of_empty_domain fuel h1' h2' h3' h4')
          _ b hcell s1 s2

/-- `set_value` does not change horizontal-dot reads. -/
@[simp] theorem Board.setValue_hDotAt (b : Board) (x y z r c : Nat) :
    ((b.setValue x y z).hDotAt r c) = b.hDotAt r c := rfl

/-- `set_value` does not change vertical-dot reads. -/
@[simp] theorem Board.setValue_vDotAt (b : Board) (x y z r c : Nat) :
    ((b.setValue x y z).vDotAt r c) = b.vDotAt r c := rfl

/-- Writing a checked value into an empty cell keeps every clue
consistent: the new value was checked against every filled cell, the
checks are symmetric, and all other pairs are untouched. -/
theorem CluesConsistent_setValue {b : Board} {row col v : Nat}
    (hcons : CluesConsistent b) (hr : row < 9) (hcc : col < 9)
    (hcell : b.grid row col = EMPTY_CELL) (hvne : v ≠ EMPTY_CELL)
    (hs : is_valid_sudoku_move b row col v = true)
    (hd : is_valid_dot_move b row col v = true) :
    CluesConsistent (b.setValue row col v) := by
  intro r c hr9 hc9 hne
  rw [GRID_SIZE_eq] at hr9 hc9
  by_cases hrc : r = row ∧ c = col
  · obtain ⟨rfl, rfl⟩ := hrc
    rw [Board.setValue_grid_self, Board.setValue_cancel v hcell]
    exact ⟨hs, hd⟩
  · have hb1grid : (b.setValue row col v).grid r c = b.grid r c := Board.setValue_grid_ne b v hrc
    rw [hb1grid] at hne ⊢
    rw [Board.setValue_comm b v EMPTY_CELL hrc]
    obtain ⟨hs0, hd0⟩ := hcons r c hr9 hc9 hne
    rw [is_valid_sudoku_move_iff hne] at hs0
    rw [is_valid_dot_move_iff hne] at hd0
    rw [is_valid_sudoku_move_iff hvne] at hs
    rw [is_valid_dot_move_iff hvne] at hd
    obtain ⟨hrow0, hcol0, hblk0⟩ := hs0
    obtain ⟨hL0, hR0, hU0, hD0⟩ := hd0
    obtain ⟨hrowv, hcolv, hblkv⟩ := hs
    obtain ⟨hLv, hRv, hUv, hDv⟩ := hd
    constructor
    · rw [is_valid_sudoku_move_iff hne]
      refine ⟨fun hcon => ?_, fun hcon => ?_, fun hcon => ?_⟩
      · obtain ⟨j, hj, hjne, hjeq⟩ := hcon
        by_cases hjrc : r = row ∧ j = col
        · obtain ⟨rfl, rfl⟩ := hjrc
          rw [Board.setValue_grid_self] at hjeq
          exact hrowv ⟨c, hc9, hne, hjeq.symm⟩
        · rw [Board.setValue_grid_ne _ v hjrc] at hjne hjeq
          exact hrow0 ⟨j, hj, hjne, hjeq⟩
      · obtain ⟨i, hi, hine, hieq⟩ := hcon
        by_cases hirc : i = row ∧ c = col
        · obtain ⟨rfl, rfl⟩ := hirc
          rw [Board.setValue_grid_self] at hieq
          exact hcolv ⟨r, hr9, hne, hieq.symm⟩
        · rw [Board.setValue_grid_ne _ v hirc] at hine hieq
          exact hcol0 ⟨i, hi, hine, hieq⟩
      · obtain ⟨i, hi, j, hj, hijne, hijeq⟩ := hcon
        by_cases hijrc : 3 * (r / 3) + i = row ∧ 3 * (c / 3) + j = col
        · obtain ⟨hRr, hCc⟩ := hijrc
          rw [hRr, hCc, Board.setValue_grid_self] at hijeq
          have he1 : 3 * (row / 3) + (r - 3 * (row / 3)) = r := by omega
          have he2 : 3 * (col / 3) + (c - 3 * (col / 3)) = c := by omega
          apply hblkv
          refine ⟨r - 3 * (row / 3), by omega, c - 3 * (col / 3), by omega, ?_, ?_⟩
          · rw [he1, he2]
            exact hne
          · rw [he1, he2]
            exact hijeq.symm
        · rw [Board.setValue_grid_ne _ v hijrc] at hijne hijeq
          exact hblk0 ⟨i, hi, j, hj, hijne, hijeq⟩
    · rw [is_valid_dot_move_iff hne]
      refine ⟨?_, ?_, ?_, ?_⟩
      · rintro ⟨hg1, hg2⟩
        by_cases hn : r = row ∧ c - 1 = col
        · obtain ⟨rfl, rfl⟩ := hn
          rw [Board.setValue_grid_self]
          simp only [Board.setValue_hDotAt]
          rw [pairOk_symm]
          have hc1 : c - 1 + 1 = c := by omega
          have hpo := hRv ⟨by omega, by rw [hc1]; exact hne⟩
          rw [hc1] at hpo
          exact hpo
        · rw [Board.setValue_grid_ne _ v hn] at hg2 ⊢
          simp only [Board.setValue_hDotAt]
          simp only [Board.setValue_hDotAt] at hL0
          exact hL0 ⟨hg1, hg2⟩
      · rintro ⟨hg1, hg2⟩
        by_cases hn : r = row ∧ c + 1 = col
        · obtain ⟨rfl, rfl⟩ := hn
          rw [Board.setValue_grid_self]
          simp only [Board.setValue_hDotAt]
          rw [pairOk_symm]
          have hc1 : c + 1 - 1 = c := by omega
          have hpo := hLv ⟨by omega, by rw [hc1]; exact hne⟩
          rw [hc1] at hpo
          exact hpo
        · rw [Board.setValue_grid_ne _ v hn] at hg2 ⊢
          simp only [Board.setValue_hDotAt]
          simp only [Board.setValue_hDotAt] at hR0
          exact hR0 ⟨hg1, hg2⟩
      · rintro ⟨hg1, hg2⟩
        by_cases hn : r - 1 = row ∧ c = col
        · obtain ⟨rfl, rfl⟩ := hn
          rw [Board.setValue_grid_self]
          simp only [Board.setValue_vDotAt]
          rw [pairOk_symm]
          have hc1 : r - 1 + 1 = r := by omega
          have hpo := hDv ⟨by omega, by rw [hc1]; exact hne⟩
          rw [hc1] at hpo
          exact hpo
        · rw [Board.setValue_grid_ne _ v hn] at hg2 ⊢
          simp only [Board.setValue_vDotAt]
          simp only [Board.setValue_vDotAt] at hU0
          exact hU0 ⟨hg1, hg2⟩
      · rintro ⟨hg1, hg2⟩
        by_cases hn : r + 1 = row ∧ c = col
        · obtain ⟨rfl, rfl⟩ := hn
          rw [Board.setValue_grid_self]
          simp only [Board.setValue_vDotAt]
          rw [pairOk_symm]
          have hc1 : r + 1 - 1 = r := by omega
          have hpo := hUv ⟨by omega, by rw [hc1]; exact hne⟩
          rw [hc1] at hpo
          exact hpo
        · rw [Board.setValue_grid_ne _ v hn] at hg2 ⊢
          simp only [Board.setValue_vDotAt]
          simp only [Board.setValue_vDotAt] at hD0
          exact hD0 ⟨hg1, hg2⟩

/-- The search invariant is preserved by a checked assignment. -/
theorem SearchInv_setValue {b : Board} {row col v : Nat}
    (hinv : SearchInv b) (hr : row < 9) (hcc : col < 9)
    (hcell : b.grid row col = EMPTY_CELL) (hv1 : 1 ≤ v) (hv9 : v ≤ 9)
    (hs : is_valid_sudoku_move b row col v = true)
    (hd : is_valid_dot_move b row col v = true) :
    SearchInv (b.setValue row col v) := by
  obtain ⟨hrange, hcons⟩ := hinv
  constructor
  · intro r c hr9 hc9
    by_cases hrc : r = row ∧ c = col
    · obtain ⟨rfl, rfl⟩ := hrc
      rw [Board.setValue_grid_self]
      exact hv9
    · rw [Board.setValue_grid_ne _ v hrc]
      exact hrange r c hr9 hc9
  · exact CluesConsistent_setValue hcons hr hcc hcell
      (by rw [EMPTY_CELL_eq]; omega) hs hd

/-- A complete board satisfying the search invariant is a full solution
of itself: clue consistency of every cell yields all-different rows,
columns and blocks and every adjacent dot relation. -/
theorem SearchInv_complete_solution {b : Board} (hinv : SearchInv b)
    (hcomp : b.is_complete = true) : SolutionGrid b b.grid ∧ ExtendsGrid b b.grid := by
  obtain ⟨hrange, hcons⟩ := hinv
  have hfull := is_complete_iff.mp hcomp
  refine ⟨⟨?_, ?_, ?_, ?_, ?_, ?_⟩, fun r c _ _ _ => rfl⟩
  · intro r c hr hc
    rw [GRID_SIZE_eq] at hr hc
    exact ⟨Nat.one_le_iff_ne_zero.mpr (hfull r c hr hc), hrange r c hr hc⟩
  · intro r c1 c2 hr hc1 hc2 hne12 heq
    rw [GRID_SIZE_eq] at hr hc1 hc2
    have hne : b.grid r c1 ≠ EMPTY_CELL := hfull r c1 hr hc1
    obtain ⟨hsud, -⟩ := hcons r c1 hr hc1 hne
    rw [is_valid_sudoku_move_iff hne] at hsud
    have hstep : ¬(c2 = r ∧ c2 = c1) ∨ True := Or.inr trivial
    apply hsud.1
    refine ⟨c2, hc2, ?_, ?_⟩
    · rw [Board.setValue_grid_ne _ _ (fun hcon => hne12 hcon.2.symm)]
      exact hfull r c2 hr hc2
    · rw [Board.setValue_grid_ne _ _ (fun hcon => hne12 hcon.2.symm)]
      exact heq.symm
  · intro c r1 r2 hc hr1 hr2 hne12 heq
    rw [GRID_SIZE_eq] at hc hr1 hr2
    have hne : b.grid r1 c ≠ EMPTY_CELL := hfull r1 c hr1 hc
    obtain ⟨hsud, -⟩ := hcons r1 c hr1 hc hne
    rw [is_valid_sudoku_move_iff hne] at hsud
    apply hsud.2.1
    refine ⟨r2, hr2, ?_, ?_⟩
    · rw [Board.setValue_grid_ne _ _ (fun hcon => hne12 hcon.1.symm)]
      exact hfull r2 c hr2 hc
    · rw [Board.setValue_grid_ne _ _ (fun hcon => hne12 hcon.1.symm)]
      exact heq.symm
  · intro r1 c1 r2 c2 hr1 hc1 hr2 hc2 hdiv1 hdiv2 hneq heq
    rw [GRID_SIZE_eq] at hr1 hc1 hr2 hc2
    rw [BLOCK_SIZE_eq] at hdiv1 hdiv2
    have hne : b.grid r1 c1 ≠ EMPTY_CELL := hfull r1 c1 hr1 hc1
    obtain ⟨hsud, -⟩ := hcons r1 c1 hr1 hc1 hne
    rw [is_valid_sudoku_move_iff hne] at hsud
    have hne2 : ¬(r2 = r1 ∧ c2 = c1) := by
      rintro ⟨rfl, rfl⟩
      exact hneq rfl
    have he1 : 3 * (r1 / 3) + (r2 - 3 * (r1 / 3)) = r2 := by omega
    have he2 : 3 * (c1 / 3) + (c2 - 3 * (c1 / 3)) = c2 := by omega
    apply hsud.2.2
    refine ⟨r2 - 3 * (r1 / 3), by omega, c2 - 3 * (c1 / 3), by omega, ?_, ?_⟩
    · rw [he1, he2, Board.setValue_grid_ne _ _ hne2]
      exact hfull r2 c2 hr2 hc2
    · rw [he1, he2, Board.setValue_grid_ne _ _ hne2]
      exact heq.symm
  · intro r c hr hc
    rw [GRID_SIZE_eq] at hr hc
    have hc8 : c < 8 := by omega
    have hne : b.grid r c ≠ EMPTY_CELL := hfull r c hr (by omega)
    obtain ⟨-, hdot⟩ := hcons r c hr (by rw [GRID_SIZE_eq]; omega) hne
    rw [is_valid_dot_move_iff hne] at hdot
    have hg2 : (b.setValue r c EMPTY_CELL).grid r (c + 1) = b.grid r (c + 1) := by
      apply Board.setValue_grid_ne
      rintro ⟨-, hcon⟩
      omega
    have hpo := hdot.2.1 ⟨hc8, by rw [hg2]; exact hfull r (c + 1) hr (by omega)⟩
    rw [hg2] at hpo
    simp only [Board.setValue_hDotAt] at hpo
    rw [Board.hDotAt, if_pos (by rw [GRID_SIZE_eq]; omega)] at hpo
    have hval : (b.setValue r c EMPTY_CELL).grid r c = EMPTY_CELL :=
      Board.setValue_grid_self b r c EMPTY_CELL
    exact hpo
  · intro r c hr hc
    rw [GRID_SIZE_eq] at hr hc
    have hr8 : r < 8 := by omega
    have hne : b.grid r c ≠ EMPTY_CELL := hfull r c (by omega) hc
    obtain ⟨-, hdot⟩ := hcons r c (by rw [GRID_SIZE_eq]; omega) hc hne
    rw [is_valid_dot_move_iff hne] at hdot
    have hg2 : (b.setValue r c EMPTY_CELL).grid (r + 1) c = b.grid (r + 1) c := by
      apply Board.setValue_grid_ne
      rintro ⟨hcon, -⟩
      omega
    have hpo := hdot.2.2.2 ⟨hr8, by rw [hg2]; exact hfull (r + 1) c (by omega) hc⟩
    rw [hg2] at hpo
    simp only [Board.setValue_vDotAt] at hpo
    rw [Board.vDotAt, if_pos (by rw [GRID_SIZE_eq]; omega)] at hpo
    exact hpo

/-- The value loop preserves the search invariant along success. -/
theorem tryValues_SearchInv {recurse : KropkiSolver → Board → SearchResult}
    {row col : Nat} (hr : row < 9) (hcc : col < 9)
    (hrec_frame : ∀ s' b', (recurse s' b').solved = false → (recurse s' b').board = b')
    (hrec_inv : ∀ s' b', SearchInv b' → (recurse s' b').solved = true →
      SearchInv (recurse s' b').board)
    (vs : List Nat) :
    ∀ (s : KropkiSolver) (b : Board), b.grid row col = EMPTY_CELL →
      (∀ w ∈ vs, 1 ≤ w ∧ w ≤ 9) → SearchInv b →
      (tryValues recurse row col vs s b).solved = true →
      SearchInv (tryValues recurse row col vs s b).board := by
  induction vs with
  | nil =>
    intro s b hcell hvs hinv h
    rw [tryValues] at h
    simp at h
  | cons v vs ih =>
    intro s b hcell hvs hinv h
    by_cases hg : (is_valid_sudoku_move b row col v && is_valid_dot_move b row col v) = true
    · by_cases hio : (if s.use_forward_checking then
          KropkiSolver.inference { s with assignments := s.assignments + 1 }
            (b.setValue row col v) row col else true) = true
      · by_cases hsv : (recurse { s with assignments := s.assignments + 1 }
            (b.setValue row col v)).solved = true
        · rw [tryValues_rec_solved hg hio hsv]
          obtain ⟨hw1, hw9⟩ := hvs v (List.mem_cons_self v vs)
          have hg' := hg
          rw [Bool.and_eq_true] at hg'
          exact hrec_inv _ _
            (SearchInv_setValue hinv hr hcc hcell hw1 hw9 hg'.1 hg'.2) hsv
        · rw [Bool.not_eq_true] at hsv
          rw [tryValues_rec_unsolved hg hio hsv] at h ⊢
          rw [hrec_frame _ _ hsv, Board.setValue_cancel v hcell] at h ⊢
          exact ih _ b hcell (fun w hw => hvs w (List.mem_cons_of_mem v hw)) hinv h
      · rw [Bool.not_eq_true] at hio
        rw [tryValues_io_false hg hio] at h ⊢
        rw [Board.setValue_cancel v hcell] at h ⊢
        exact ih _ b hcell (fun w hw => hvs w (List.mem_cons_of_mem v hw)) hinv h
    · rw [Bool.not_eq_true] at hg
      rw [tryValues_guard_false hg] at h ⊢
      exact ih s b hcell (fun w hw => hvs w (List.mem_cons_of_mem v hw)) hinv h

/-- Soundness half of the invariant argument: a successful search from an
invariant-satisfying board ends in an invariant-satisfying board. -/
theorem backtrack_SearchInv (fuel : Nat) :
    ∀ (s : KropkiSolver) (b : Board), SearchInv b →
      (backtrack fuel s b).solved = true → SearchInv (backtrack fuel s b).board := by
  induction fuel with
  | zero => intro s b hinv _; exact hinv
  | succ fuel ih =>
    intro s b hinv h
    by_cases hcomp : b.is_complete = true
    · have hstep : backtrack (fuel + 1) s b = ⟨true, s, b⟩ := by
        rw [backtrack, if_pos hcomp]
      rw [hstep]
      exact hinv
    · rcases hsel : select_unassigned_variable b with _ | ⟨⟨row, col⟩⟩
      · have hstep : backtrack (fuel + 1) s b = ⟨false, s, b⟩ := by
          rw [backtrack, if_neg hcomp, hsel]
        rw [hstep] at h
        simp at h
      · have hstep : backtrack (fuel + 1) s b =
            tryValues (backtrack fuel) row col
              (order_domain_values (get_valid_values b row col)) s b := by
          rw [backtrack, if_neg hcomp, hsel]
        rw [hstep] at h ⊢
        obtain ⟨hr, hcc, hcell, -⟩ := select_unassigned_variable_eq_some hsel
        apply tryValues_SearchInv hr hcc (backtrack_frame fuel) ih _ s b hcell ?_ hinv h
        intro w hw
        rw [order_domain_values_get_valid_values] at hw
        have := mem_get_valid_values.mp hw
        exact ⟨this.2.1, this.2.2.1⟩

/-- Pigeonhole on nine cells: nine pairwise-distinct digits from 1-9
cover every digit exactly once. -/
theorem exists_unique_digit {f : Fin 9 → Nat}
    (hmem : ∀ i, 1 ≤ f i ∧ f i ≤ 9) (hinj : Function.Injective f) :
    ∀ v, 1 ≤ v → v ≤ 9 → ∃ i, f i = v ∧ ∀ j, f j = v → j = i := by
  intro v h1 h9
  have hsub : Finset.image f Finset.univ ⊆ Finset.Icc 1 9 := by
    intro x hx
    rw [Finset.mem_image] at hx
    obtain ⟨i, -, rfl⟩ := hx
    rw [Finset.mem_Icc]
    exact hmem i
  have hcard : (Finset.image f Finset.univ).card = 9 := by
    rw [Finset.card_image_of_injective _ hinj, Finset.card_univ, Fintype.card_fin]
  have heq : Finset.image f Finset.univ = Finset.Icc 1 9 := by
    apply Finset.eq_of_subset_of_card_le hsub
    rw [hcard, Nat.card_Icc]
  have hv : v ∈ Finset.image f Finset.univ := by
    rw [heq, Finset.mem_Icc]
    exact ⟨h1, h9⟩
  rw [Finset.mem_image] at hv
  obtain ⟨i, -, hi⟩ := hv
  exact ⟨i, hi, fun j hj => hinj (hj.trans hi.symm)⟩

/-- The solver-side solution notion implies the claim-side one: pairwise
distinctness plus fullness yields exactly-once rows, columns and blocks,
and `pairOk` yields the semantic dot relations. -/
theorem IsKropkiSolution_of_SolutionGrid {b : Board} {g : Nat → Nat → Nat}
    (hsol : SolutionGrid b g) (hext : ExtendsGrid b g) : IsKropkiSolution b g := by
  obtain ⟨hrange, hrow, hcol, hblk, hhd, hvd⟩ := hsol
  simp only [GRID_SIZE_eq, BLOCK_SIZE_eq, MIN_VALUE_eq,
    MAX_VALUE_eq] at hrange hrow hcol hblk hhd hvd
  refine ⟨hrange, hext, ?_, ?_, ?_, ?_, ?_⟩
  · intro r v hr h1 h9
    rw [GRID_SIZE_eq] at hr
    rw [MIN_VALUE_eq] at h1
    rw [MAX_VALUE_eq] at h9
    have hinj : Function.Injective (fun i : Fin 9 => g r i) := by
      intro i j heq
      by_contra hne
      exact hrow r i j hr i.isLt j.isLt (fun hc => hne (Fin.ext hc)) heq
    obtain ⟨i, hiv, huniq⟩ := exists_unique_digit
      (fun i : Fin 9 => hrange r i hr i.isLt) hinj v h1 h9
    refine ⟨i.val, ⟨i.isLt, hiv⟩, ?_⟩
    rintro c ⟨hc9, hcv⟩
    exact congrArg Fin.val (huniq ⟨c, hc9⟩ hcv)
  · intro c v hc h1 h9
    rw [GRID_SIZE_eq] at hc
    rw [MIN_VALUE_eq] at h1
    rw [MAX_VALUE_eq] at h9
    have hinj : Function.Injective (fun i : Fin 9 => g i c) := by
      intro i j heq
      by_contra hne
      exact hcol c i j hc i.isLt j.isLt (fun hc2 => hne (Fin.ext hc2)) heq
    obtain ⟨i, hiv, huniq⟩ := exists_unique_digit
      (fun i : Fin 9 => hrange i c i.isLt hc) hinj v h1 h9
    refine ⟨i.val, ⟨i.isLt, hiv⟩, ?_⟩
    rintro r ⟨hr9, hrv⟩
    exact congrArg Fin.val (huniq ⟨r, hr9⟩ hrv)
  · intro br bc v hbr hbc h1 h9
    rw [BLOCK_SIZE_eq] at hbr hbc
    rw [MIN_VALUE_eq] at h1
    rw [MAX_VALUE_eq] at h9
    have hinj : Function.Injective
        (fun k : Fin 9 => g (3 * br + k.val / 3) (3 * bc + k.val % 3)) := by
      intro i j heq
      by_contra hne
      have hr1 : 3 * br + i.val / 3 < 9 := by omega
      have hc1 : 3 * bc + i.val % 3 < 9 := by omega
      have hr2 : 3 * br + j.val / 3 < 9 := by omega
      have hc2 : 3 * bc + j.val % 3 < 9 := by omega
      have hd1 : (3 * br + i.val / 3) / 3 = (3 * br + j.val / 3) / 3 := by omega
      have hd2 : (3 * bc + i.val % 3) / 3 = (3 * bc + j.val % 3) / 3 := by omega
      have hpne : (3 * br + i.val / 3, 3 * bc + i.val % 3) ≠
          (3 * br + j.val / 3, 3 * bc + j.val % 3) := by
        rw [Ne, Prod.mk.injEq]
        rintro ⟨ha, hb⟩
        apply hne
        apply Fin.ext
        omega
      exact hblk _ _ _ _ hr1 hc1 hr2 hc2 hd1 hd2 hpne heq
    have hmem9 : ∀ k : Fin 9, 1 ≤ g (3 * br + k.val / 3) (3 * bc + k.val % 3) ∧
        g (3 * br + k.val / 3) (3 * bc + k.val % 3) ≤ 9 := by
      intro k
      have hk9 := k.isLt
      exact hrange _ _ (by omega) (by omega)
    obtain ⟨k, hkv, huniq⟩ := exists_unique_digit hmem9 hinj v h1 h9
    have hk9 := k.isLt
    refine ⟨(k.val / 3, k.val % 3),
      ⟨by rw [BLOCK_SIZE_eq]; omega, by rw [BLOCK_SIZE_eq]; omega, hkv⟩, ?_⟩
    rintro ⟨p1, p2⟩ ⟨hp1, hp2, hpv⟩
    rw [BLOCK_SIZE_eq] at hp1 hp2 hpv
    have hk' : (⟨3 * p1 + p2, by omega⟩ : Fin 9) = k := by
      apply huniq
      have e1 : (3 * p1 + p2) / 3 = p1 := by omega
      have e2 : (3 * p1 + p2) % 3 = p2 := by omega
      simp only [e1, e2]
      exact hpv
    have hval : 3 * p1 + p2 = k.val := congrArg Fin.val hk'
    rw [Prod.mk.injEq]
    constructor
    · omega
    · omega
  · intro r c hr hc
    rw [GRID_SIZE_eq] at hr hc
    have ha := hrange r c hr (by omega)
    have hb := hrange r (c + 1) hr (by omega)
    rw [← pairOk_iff_DotRel (by rw [EMPTY_CELL_eq]; omega) (by rw [EMPTY_CELL_eq]; omega)]
    exact hhd r c hr (by omega)
  · intro r c hr hc
    rw [GRID_SIZE_eq] at hr hc
    have ha := hrange r c (by omega) hc
    have hb := hrange (r + 1) c (by omega) hc
    rw [← pairOk_iff_DotRel (by rw [EMPTY_CELL_eq]; omega) (by rw [EMPTY_CELL_eq]; omega)]
    exact hvd r c (by omega) hc

/-- The claim-side solution notion implies the solver-side one. -/
theorem SolutionGrid_of_IsKropkiSolution {b : Board} {g : Nat → Nat → Nat}
    (h : IsKropkiSolution b g) : SolutionGrid b g ∧ ExtendsGrid b g := by
  obtain ⟨hrange, hext, hrow, hcol, hblk, hhd, hvd⟩ := h
  simp only [GRID_SIZE_eq, BLOCK_SIZE_eq, MIN_VALUE_eq,
    MAX_VALUE_eq] at hrange hrow hcol hblk hhd hvd
  refine ⟨⟨hrange, ?_, ?_, ?_, ?_, ?_⟩, hext⟩
  · intro r c1 c2 hr hc1 hc2 hne heq
    rw [GRID_SIZE_eq] at hr hc1 hc2
    obtain ⟨hv1, hv9⟩ := hrange r c1 hr hc1
    obtain ⟨c0, -, huniq⟩ := hrow r (g r c1) hr hv1 hv9
    exact hne ((huniq c1 ⟨hc1, rfl⟩).trans (huniq c2 ⟨hc2, heq.symm⟩).symm)
  · intro c r1 r2 hc hr1 hr2 hne heq
    rw [GRID_SIZE_eq] at hc hr1 hr2
    obtain ⟨hv1, hv9⟩ := hrange r1 c hr1 hc
    obtain ⟨r0, -, huniq⟩ := hcol c (g r1 c) hc hv1 hv9
    exact hne ((huniq r1 ⟨hr1, rfl⟩).trans (huniq r2 ⟨hr2, heq.symm⟩).symm)
  · intro r1 c1 r2 c2 hr1 hc1 hr2 hc2 hdiv1 hdiv2 hneq heq
    rw [GRID_SIZE_eq] at hr1 hc1 hr2 hc2
    rw [BLOCK_SIZE_eq] at hdiv1 hdiv2
    obtain ⟨hv1, hv9⟩ := hrange r1 c1 hr1 hc1
    obtain ⟨p0, -, huniq⟩ := hblk (r1 / 3) (c1 / 3) (g r1 c1) (by omega) (by omega) hv1 hv9
    have he1 : 3 * (r1 / 3) + (r1 - 3 * (r1 / 3)) = r1 := by omega
    have he2 : 3 * (c1 / 3) + (c1 - 3 * (c1 / 3)) = c1 := by omega
    have he3 : 3 * (r1 / 3) + (r2 - 3 * (r1 / 3)) = r2 := by omega
    have he4 : 3 * (c1 / 3) + (c2 - 3 * (c1 / 3)) = c2 := by omega
    have hu1 := huniq (r1 - 3 * (r1 / 3), c1 - 3 * (c1 / 3))
      ⟨by omega, by omega, by rw [he1, he2]⟩
    have hu2 := huniq (r2 - 3 * (r1 / 3), c2 - 3 * (c1 / 3))
      ⟨by omega, by omega, by rw [he3, he4]; exact heq.symm⟩
    apply hneq
    have := hu1.trans hu2.symm
    rw [Prod.mk.injEq] at this ⊢
    constructor
    · omega
    · omega
  · intro r c hr hc
    rw [GRID_SIZE_eq] at hr hc
    have ha := hrange r c hr (by omega)
    have hb := hrange r (c + 1) hr (by omega)
    rw [pairOk_iff_DotRel (by rw [EMPTY_CELL_eq]; omega) (by rw [EMPTY_CELL_eq]; omega)]
    exact hhd r c hr (by omega)
  · intro r c hr hc
    rw [GRID_SIZE_eq] at hr hc
    have ha := hrange r c (by omega) hc
    have hb := hrange (r + 1) c (by omega) hc
    rw [pairOk_iff_DotRel (by rw [EMPTY_CELL_eq]; omega) (by rw [EMPTY_CELL_eq]; omega)]
    exact hvd r c (by omega) hc

/-- A second write to the same cell overwrites the first. -/
theorem Board.setValue_overwrite (b : Board) (r c x y : Nat) :
    (b.setValue r c x).setValue r c y = b.setValue r c y := by
  cases b with
  | mk g hd vd =>
    simp only [Board.setValue]
    congr 1
    funext r' c'
    by_cases hc : r' = r ∧ c' = c
    · simp only [if_pos hc]
    · simp only [if_neg hc]

/-- Reading the grid after writing one row segment. -/
theorem setRowFrom_grid :
    ∀ (vals : List Nat) (b : Board) (row start r c : Nat),
      (setRowFrom b row start vals).grid r c =
        if r = row ∧ start ≤ c ∧ c < start + vals.length then vals.getD (c - start) 0
        else b.grid r c := by
  intro vals
  induction vals with
  | nil =>
    intro b row start r c
    rw [setRowFrom]
    rw [if_neg (by rintro ⟨-, h1, h2⟩; simp at h2; omega)]
  | cons v vs ih =>
    intro b row start r c
    rw [setRowFrom, ih]
    by_cases h1 : r = row ∧ start + 1 ≤ c ∧ c < start + 1 + vs.length
    · rw [if_pos h1, if_pos (by obtain ⟨ha, hb, hc⟩ := h1; exact ⟨ha, by omega, by simp; omega⟩)]
      have hcs : c - start = (c - (start + 1)) + 1 := by omega
      rw [hcs]
      rw [List.getD_cons_succ]
    · rw [if_neg h1]
      by_cases h2 : r = row ∧ start ≤ c ∧ c < start + (v :: vs).length
      · have hcs : c = start := by
          simp only [List.length_cons] at h2
          obtain ⟨ha, hb, hc2⟩ := h2
          by_contra hcon
          exact h1 ⟨ha, by omega, by omega⟩
        rw [if_pos h2, Board.setValue_grid, if_pos ⟨h2.1, hcs⟩, hcs]
        simp
      · rw [if_neg h2, Board.setValue_grid, if_neg ?_]
        rintro ⟨ha, hb⟩
        apply h2
        refine ⟨ha, by omega, by simp; omega⟩
  
/-- Writing a grid row leaves both dot matrices untouched. -/
theorem setRowFrom_dots :
    ∀ (vals : List Nat) (b : Board) (row start : Nat),
      (setRowFrom b row start vals).horizontal_dots = b.horizontal_dots ∧
      (setRowFrom b row start vals).vertical_dots = b.vertical_dots := by
  intro vals
  induction vals with
  | nil => intro b row start; exact ⟨rfl, rfl⟩
  | cons v vs ih =>
    intro b row start
    rw [setRowFrom]
    exact ih (b.setValue row start v) row (start + 1)

/-- Writing a horizontal-dot row leaves the grid untouched. -/
theorem setHRowFrom_grid :
    ∀ (ds : List Nat) (b : Board) (row start : Nat),
      (setHRowFrom b row start ds).grid = b.grid := by
  intro ds
  induction ds with
  | nil => intro b row start; rfl
  | cons d ds ih =>
    intro b row start
    rw [setHRowFrom, ih]
    rw [Board.setHDot]
    split
    · rfl
    · rfl

/-- Writing a vertical-dot row leaves the grid untouched. -/
theorem setVRowFrom_grid :
    ∀ (ds : List Nat) (b : Board) (row start : Nat),
      (setVRowFrom b row start ds).grid = b.grid := by
  intro ds
  induction ds with
  | nil => intro b row start; rfl
  | cons d ds ih =>
    intro b row start
    rw [setVRowFrom, ih]
    rw [Board.setVDot]
    split
    · rfl
    · rfl

/-- A validated grid line is returned unchanged and has exactly nine
tokens. -/
theorem validate_grid_line_ok {l l' : List Nat}
    (h : validate_grid_line l = .ok l') : l' = l ∧ l.length = 9 := by
  rw [validate_grid_line] at h
  by_cases h1 : l.length ≠ GRID_SIZE
  · rw [if_pos h1] at h
    cases h
  · rw [if_neg h1] at h
    push_neg at h1
    split at h
    · cases h
    · cases h
      exact ⟨rfl, by rw [h1, GRID_SIZE_eq]⟩

/-- Stepwise invariant for an `Except`-valued fold: a property preserved
by every successful step holds of the final state. -/
theorem foldlM_except_induct {α β : Type} {P : β → Prop} (f : β → α → Except String β)
    (hstep : ∀ b a b', f b a = .ok b' → P b → P b') :
    ∀ (l : List α) (b0 bf : β), P b0 → l.foldlM f b0 = .ok bf → P bf := by
  intro l
  induction l with
  | nil =>
    intro b0 bf hP h
    rw [List.foldlM_nil] at h
    cases h
    exact hP
  | cons a t ih =>
    intro b0 bf hP h
    rw [List.foldlM_cons] at h
    cases hfa : f b0 a with
    | error e =>
      rw [hfa] at h
      cases h
    | ok b1 =>
      rw [hfa] at h
      exact ih b1 bf (hstep b0 a b1 hfa hP) h

/-- Element-indexed postcondition for an `Except`-valued fold: a
postcondition established when an element is processed and preserved by
every later successful step holds of every processed element at the end. -/
theorem foldlM_except_each {α β : Type} (f : β → α → Except String β) (Q : α → β → Prop)
    (hnew : ∀ b a b', f b a = .ok b' → Q a b')
    (hkeep : ∀ b a b' a', f b a = .ok b' → Q a' b → Q a' b') :
    ∀ (l : List α) (b0 bf : β), l.foldlM f b0 = .ok bf → ∀ a ∈ l, Q a bf := by
  intro l
  induction l with
  | nil =>
    intro b0 bf h a ha
    cases ha
  | cons x t ih =>
    intro b0 bf h a ha
    rw [List.foldlM_cons] at h
    cases hfx : f b0 x with
    | error e =>
      rw [hfx] at h
      cases h
    | ok b1 =>
      rw [hfx] at h
      rcases List.mem_cons.mp ha with rfl | hat
      · exact foldlM_except_induct f (fun bb aa bb' hf hQ => hkeep bb aa bb' a hf hQ)
          t b1 bf (hnew b0 a b1 hfx) h
      · exact ih b1 bf h a hat

/-- A raised error is recognised. -/
@[simp] theorem isErr_error {α : Type} (e : String) :
    isErr (.error e : Except String α) = true := rfl

/-- A normal return is not an error. -/
@[simp] theorem isErr_ok {α : Type} (a : α) :
    isErr (.ok a : Except String α) = false := rfl

/-- Binding a raised error propagates the error. -/
@[simp] theorem except_bind_error {α β : Type} (e : String) (f : α → Except String β) :
    (Except.error e : Except String α) >>= f = .error e := rfl

/-- Binding a normal return applies the continuation. -/
@[simp] theorem except_bind_ok {α β : Type} (a : α) (f : α → Except String β) :
    (Except.ok a : Except String α) >>= f = f a := rfl

/-- `pure` in the `Except` monad is a normal return. -/
@[simp] theorem except_pure {α : Type} (a : α) :
    (pure a : Except String α) = .ok a := rfl

/-- If some filled cell fails its cleared-and-retested Sudoku check, the
clue-verification loop raises an error. -/
theorem verifyCells_error_of_bad :
    ∀ (cells : List (Nat × Nat)) (b : Board) (p : Nat × Nat), p ∈ cells →
      b.grid p.1 p.2 ≠ EMPTY_CELL →
      is_valid_sudoku_move (b.setValue p.1 p.2 EMPTY_CELL) p.1 p.2 (b.grid p.1 p.2) = false →
      isErr (verifyCells b cells) = true := by
  intro cells
  induction cells with
  | nil => intro b p hp _ _; cases hp
  | cons q rest ih =>
    intro b p hp hfill hbad
    simp only [verifyCells]
    by_cases hq : b.grid q.1 q.2 ≠ EMPTY_CELL
    · rw [if_pos hq]
      by_cases hqs : is_valid_sudoku_move (b.setValue q.1 q.2 EMPTY_CELL) q.1 q.2
          (b.grid q.1 q.2) = true
      · rw [if_neg (by rw [hqs]; simp)]
        by_cases hqd : is_valid_dot_move (b.setValue q.1 q.2 EMPTY_CELL) q.1 q.2
            (b.grid q.1 q.2) = true
        · rw [if_neg (by rw [hqd]; simp)]
          have hrestore : (b.setValue q.1 q.2 EMPTY_CELL).setValue q.1 q.2 (b.grid q.1 q.2)
              = b := by
            rw [Board.setValue_overwrite, Board.setValue_id rfl]
          rw [hrestore]
          apply ih b p ?_ hfill hbad
          rcases List.mem_cons.mp hp with rfl | hpt
          · exfalso
            rw [hbad] at hqs
            cases hqs
          · exact hpt
        · rw [Bool.not_eq_true] at hqd
          rw [if_pos (by rw [hqd]; simp)]
          rfl
      · rw [Bool.not_eq_true] at hqs
        rw [if_pos (by rw [hqs]; simp)]
        rfl
    · rw [if_neg hq]
      push_neg at hq
      apply ih b p ?_ hfill hbad
      rcases List.mem_cons.mp hp with rfl | hpt
      · exact absurd hq hfill
      · exact hpt

/-- Claim C8: `load_puzzle` rejects any token table whose grid region
repeats a nonzero value inside one row (the spec's scenario of two
identical clues in a row): either some earlier validation already
fails, or the board is built faithfully and `verify_initial_board` —
which temporarily clears each clue and re-tests it — catches the
repeated clue.  Either way the loader raises (`.error`) and never
returns a `Board`. -/
theorem claim_C8 (lines : List (List Nat)) (i j1 j2 : Nat)
    (hi : i < 9) (h1 : j1 < 9) (h2 : j2 < 9) (hne : j1 ≠ j2)
    (heq : (lines.getD i []).getD j1 0 = (lines.getD i []).getD j2 0)
    (hnz : (lines.getD i []).getD j1 0 ≠ 0) :
    isErr (load_puzzle lines) = true := by
  rcases hg : loadGridRows lines Board.empty with e | b1
  · rw [load_puzzle]
    rw [hg, except_bind_error]
    rfl
  · have hcontent : ∀ r, r ∈ List.range GRID_SIZE →
        (lines.getD r []).length = 9 ∧
        ∀ c, c < 9 → b1.grid r c = (lines.getD r []).getD c 0 := by
      apply foldlM_except_each _
        (fun r bb => (lines.getD r []).length = 9 ∧
          ∀ c, c < 9 → bb.grid r c = (lines.getD r []).getD c 0) ?_ ?_ _ _ _ hg
      · intro b row b' hf
        by_cases hrow : row < lines.length
        · rw [if_pos hrow] at hf
          cases hval : validate_grid_line (lines.getD row []) with
          | error e =>
            rw [hval] at hf
            cases hf
          | ok vals =>
            rw [hval, except_bind_ok, except_pure] at hf
            obtain ⟨rfl, hlen⟩ := validate_grid_line_ok hval
            cases hf
            refine ⟨hlen, ?_⟩
            intro c hc
            rw [setRowFrom_grid]
            rw [if_pos ⟨rfl, by omega, by omega⟩]
            simp
        · rw [if_neg hrow] at hf
          cases hf
      · intro b row b' a' hf hQ
        by_cases hrow : row < lines.length
        · rw [if_pos hrow] at hf
          cases hval : validate_grid_line (lines.getD row []) with
          | error e =>
            rw [hval] at hf
            cases hf
          | ok vals =>
            rw [hval, except_bind_ok, except_pure] at hf
            obtain ⟨rfl, hlen⟩ := validate_grid_line_ok hval
            cases hf
            refine ⟨hQ.1, ?_⟩
            intro c hc
            rw [setRowFrom_grid]
            by_cases hrr : a' = row
            · rw [if_pos ⟨hrr, by omega, by omega⟩]
              rw [hrr]
              simp
            · rw [if_neg (by rintro ⟨hcon, -⟩; exact hrr hcon)]
              exact hQ.2 c hc
        · rw [if_neg hrow] at hf
          cases hf
    rcases hh : loadHDotRows lines b1 with e | b2
    · rw [load_puzzle]
      rw [hg, except_bind_ok, hh, except_bind_error]
      rfl
    · have hgrid2 : b2.grid = b1.grid := by
        apply @foldlM_except_induct Nat Board (fun bb => bb.grid = b1.grid) _ ?_ _ _ _ rfl hh
        intro b row b' hf hP
        by_cases hrow : row + GRID_SIZE < lines.length
        · rw [if_pos hrow] at hf
          cases hval : validate_dot_line (lines.getD (row + GRID_SIZE) []) (GRID_SIZE - 1) with
          | error e =>
            rw [hval] at hf
            cases hf
          | ok ds =>
            rw [hval, except_bind_ok, except_pure] at hf
            cases hf
            rw [setHRowFrom_grid]
            exact hP
        · rw [if_neg hrow] at hf
          cases hf
      rcases hv : loadVDotRows lines b2 with e | b3
      · rw [load_puzzle]
        rw [hg, except_bind_ok, hh, except_bind_ok, hv, except_bind_error]
        rfl
      · have hgrid3 : b3.grid = b2.grid := by
          apply @foldlM_except_induct Nat Board (fun bb => bb.grid = b2.grid) _ ?_ _ _ _ rfl hv
          intro b row b' hf hP
          by_cases hrow : row + 2 * GRID_SIZE < lines.length
          · rw [if_pos hrow] at hf
            cases hval : validate_dot_line (lines.getD (row + 2 * GRID_SIZE) []) GRID_SIZE with
            | error e =>
              rw [hval] at hf
              cases hf
            | ok ds =>
              rw [hval, except_bind_ok, except_pure] at hf
              cases hf
              rw [setVRowFrom_grid]
              exact hP
          · rw [if_neg hrow] at hf
            cases hf
        have hload : load_puzzle lines = verify_initial_board b3 := by
          rw [load_puzzle]
          rw [hg, except_bind_ok, hh, except_bind_ok, hv, except_bind_ok]
        rw [hload]
        obtain ⟨hlen, hvals⟩ := hcontent i (by rw [List.mem_range, GRID_SIZE_eq]; omega)
        have hgi1 : b3.grid i j1 = (lines.getD i []).getD j1 0 := by
          rw [hgrid3, hgrid2]
          exact hvals j1 h1
        have hgi2 : b3.grid i j2 = (lines.getD i []).getD j2 0 := by
          rw [hgrid3, hgrid2]
          exact hvals j2 h2
        rw [verify_initial_board]
        apply verifyCells_error_of_bad allCells b3 (i, j1)
          ((@mem_allCells (i, j1)).mpr ⟨hi, h1⟩) (by rw [hgi1]; exact hnz)
        rw [Bool.eq_false_iff]
        intro hcon
        rw [is_valid_sudoku_move_iff (by rw [hgi1]; exact hnz)] at hcon
        apply hcon.1
        refine ⟨j2, h2, ?_, ?_⟩
        · rw [Board.setValue_grid_ne _ _ (by rintro ⟨-, hcon2⟩; exact hne hcon2.symm)]
          rw [hgi2, ← heq]
          exact hnz
        · rw [Board.setValue_grid_ne _ _ (by rintro ⟨-, hcon2⟩; exact hne hcon2.symm)]
          rw [hgi1, hgi2, heq]

/-- Claim C1 is refuted as stated: the all-ones board is well-formed, and
`solve` returns `true` on it (it is already complete, so the search
accepts it without checking anything), yet no full assignment satisfies
the constraints — row 0 would need the digit 1 in two different cells.
The claim needs clue consistency of the input as an extra hypothesis. -/
theorem claim_C1_counterexample :
    WellFormedBoard bAllOnes ∧
    (solve (KropkiSolver.make false) bAllOnes).solved = true ∧
    ¬ ∃ g : Nat → Nat → Nat, IsKropkiSolution bAllOnes g := by
  refine ⟨⟨fun _ _ _ _ => Nat.le_of_sub_eq_zero rfl, fun _ _ _ _ => Nat.zero_le _,
    fun _ _ _ _ => Nat.zero_le _⟩, rfl, ?_⟩
  rintro ⟨g, hsol⟩
  obtain ⟨-, hext, hrow, -, -, -, -⟩ := hsol
  have h00 : g 0 0 = 1 := hext 0 0 (by decide) (by decide) (by decide)
  have h01 : g 0 1 = 1 := hext 0 1 (by decide) (by decide) (by decide)
  obtain ⟨c0, -, huniq⟩ := hrow 0 1 (by decide) (by decide) (by decide)
  have e0 : (0 : Nat) = c0 := huniq 0 ⟨by decide, h00⟩
  have e1 : (1 : Nat) = c0 := huniq 1 ⟨by decide, h01⟩
  omega

/-- Claim C1, amended: for a well-formed board whose pre-filled clues are
mutually consistent (which is exactly what the loader's
`verify_initial_board` guarantees before the solver ever runs), `solve`
returns `true` if and only if a full assignment of digits 1-9 extending
the board satisfies every row, column and block exactly-once constraint
and every white/black/no-dot adjacency relation.  Without the
clue-consistency hypothesis the forward direction fails (see the
counterexample): the search never re-checks the clues it was given. -/
theorem claim_C1 (fc : Bool) (b : Board)
    (hwf : WellFormedBoard b) (hcons : CluesConsistent b) :
    (solve (KropkiSolver.make fc) b).solved = true ↔
      ∃ g : Nat → Nat → Nat, IsKropkiSolution b g := by
  constructor
  · intro h
    have h' : (backtrack (emptyCount b) (KropkiSolver.make fc) b).solved = true := h
    have hinv : SearchInv b := ⟨hwf.1, hcons⟩
    have hinv' := backtrack_SearchInv (emptyCount b) (KropkiSolver.make fc) b hinv h'
    have hcomp := backtrack_complete (emptyCount b) (KropkiSolver.make fc) b h'
    obtain ⟨hsolf, -⟩ := SearchInv_complete_solution hinv' hcomp
    obtain ⟨hext2, -⟩ := backtrack_success_extends (emptyCount b) (KropkiSolver.make fc) b h'
    refine ⟨(backtrack (emptyCount b) (KropkiSolver.make fc) b).board.grid,
      IsKropkiSolution_of_SolutionGrid ?_ ?_⟩
    · obtain ⟨a1, a2, a3, a4, a5, a6⟩ := hsolf
      exact ⟨a1, a2, a3, a4,
        fun r c hr hc => by have := a5 r c hr hc; rwa [hext2.2.1] at this,
        fun r c hr hc => by have := a6 r c hr hc; rwa [hext2.2.2] at this⟩
    · exact fun r c _ _ hne => hext2.1 r c hne
  · rintro ⟨g, hsol⟩
    obtain ⟨hsolg, hextg⟩ := SolutionGrid_of_IsKropkiSolution hsol
    exact backtrack_of_solution (emptyCount b) (KropkiSolver.make fc) b g
      Nat.le.refl hsolg hextg

/-- Claim C1's amended theorem instantiated at the empty board, whose
hypotheses hold trivially. -/
theorem claim_C1_witness :
    (solve (KropkiSolver.make false) Board.empty).solved = true ↔
      ∃ g : Nat → Nat → Nat, IsKropkiSolution Board.empty g :=
  claim_C1 false Board.empty
    ⟨fun _ _ _ _ => Nat.zero_le _, fun _ _ _ _ => Nat.zero_le _,
      fun _ _ _ _ => Nat.zero_le _⟩
    (fun _ _ _ _ hne => absurd rfl hne)

/-- Claim C2: a failed `solve` leaves the board exactly as it was passed
in — the grid and both dot matrices — every assignment made during the
failed search having been undone; a successful `solve` leaves the board
completely assigned, extending the input's pre-filled cells. -/
theorem claim_C2 (s : KropkiSolver) (b : Board) :
    ((solve s b).solved = false → (solve s b).board = b) ∧
    ((solve s b).solved = true →
      (solve s b).board.is_complete = true ∧ Extends b (solve s b).board) := by
  constructor
  · intro h
    exact backtrack_frame (emptyCount b) s b h
  · intro h
    exact ⟨backtrack_complete (emptyCount b) s b h,
      (backtrack_success_extends (emptyCount b) s b h).1⟩

/-- Claim C3: running the solver with forward checking on and with it
off yields the same success flag and the same final board on every input
(only the counters, carried in the returned solver state, may differ). -/
theorem claim_C3 (b : Board) :
    (solve (KropkiSolver.make true) b).solved = (solve (KropkiSolver.make false) b).solved ∧
    (solve (KropkiSolver.make true) b).board = (solve (KropkiSolver.make false) b).board :=
  backtrack_result_board_eq (emptyCount b) b (KropkiSolver.make true) (KropkiSolver.make false)

/-- Claim C4 is refuted as stated: there is no configuration-selected
plain (first-empty, row-major) variable-selection variant.  On the
concrete board `bMRV` the implemented selector picks `(1,0)` (smallest
domain) while a plain row-major scan would pick `(0,0)`, so the one
implemented selector is not the plain one under any configuration — the
solver's only configuration flag is forward checking. -/
theorem claim_C4_counterexample :
    select_unassigned_variable bMRV = some (1, 0) ∧
    plain_select_first_empty bMRV = some (0, 0) ∧
    select_unassigned_variable bMRV ≠ plain_select_first_empty bMRV := by
  refine ⟨by decide, by decide, by decide⟩

/-- Claim C4, amended: the code implements exactly one variable-selection
rule, MRV with degree tie-break and first-seen (row-major) winning
further ties, applied unconditionally.  `select_unassigned_variable`
returns `none` exactly when the board has no empty cell, and any cell it
returns is an in-range empty cell that beats every other empty cell in
the MRV ordering `mrvBetter`. -/
theorem claim_C4 (b : Board) :
    (select_unassigned_variable b = none → ∀ r c, r < 9 → c < 9 → b.grid r c ≠ 0) ∧
    (∀ row col, select_unassigned_variable b = some (row, col) →
      row < 9 ∧ col < 9 ∧ b.grid row col = 0 ∧
      ∀ q1 q2, q1 < 9 → q2 < 9 → b.grid q1 q2 = 0 → (q1, q2) ≠ (row, col) →
        mrvBetter b (row, col) (q1, q2)) :=
  ⟨fun h => select_unassigned_variable_eq_none h,
    fun _ _ h => select_unassigned_variable_eq_some h⟩

/-- Claim C5: on a pair of nonzero values that are consecutive or in a
double relationship, `check_no_dot_constraint` returns `false` — the
absence of a dot is a real constraint — and consequently placing such a
value next to a filled neighbour joined by a `NO_DOT` dot fails
`is_valid_dot_move`. -/
theorem claim_C5 (v n : Nat) (b : Board) (row col : Nat)
    (hv : v ≠ EMPTY_CELL) (hn : n ≠ EMPTY_CELL)
    (hrel : v = n + 1 ∨ n = v + 1 ∨ v = 2 * n ∨ n = 2 * v)
    (hcol : col < 8) (hdot : b.horizontal_dots row col = NO_DOT)
    (hnb : b.grid row (col + 1) = n) :
    check_no_dot_constraint v n = false ∧ is_valid_dot_move b row col v = false := by
  have hcore : check_no_dot_constraint v n = false := by
    rw [Bool.eq_false_iff]
    intro hc
    rw [check_no_dot_constraint_iff hv hn] at hc
    exact hc hrel
  refine ⟨hcore, ?_⟩
  rw [Bool.eq_false_iff]
  intro hc
  rw [is_valid_dot_move_iff hv] at hc
  have hp := hc.2.1 ⟨hcol, by rw [hnb]; exact hn⟩
  have hdotat : b.hDotAt row col = NO_DOT := by
    rw [Board.hDotAt, if_pos (by rw [GRID_SIZE_eq]; omega)]
    exact hdot
  rw [hdotat, hnb] at hp
  have hpe : pairOk NO_DOT v n = check_no_dot_constraint v n := by
    rw [pairOk]
    simp
  rw [hpe, hcore] at hp
  exact Bool.false_ne_true hp

/-- Claim C5's theorem at the concrete pair (2, 1) — consecutive — on the
all-ones board, whose dot matrices are all `NO_DOT`. -/
theorem claim_C5_witness :
    check_no_dot_constraint 2 1 = false ∧ is_valid_dot_move bAllOnes 0 0 2 = false :=
  claim_C5 2 1 bAllOnes 0 0 (by decide) (by decide) (Or.inl rfl) (by decide) rfl rfl

/-- Claim C6: querying a dot whose partner cell would lie outside the
grid — the horizontal dot at column 8, the vertical dot at row 8 —
returns `NO_DOT` without error, while the error is raised exactly when
the queried position itself is out of range. -/
theorem claim_C6 (b : Board) (row col : Nat) :
    (row < 9 → b.get_horizontal_dot row 8 = .ok NO_DOT) ∧
    (col < 9 → b.get_vertical_dot 8 col = .ok NO_DOT) ∧
    (isErr (b.get_horizontal_dot row col) = true ↔ ¬(row < 9 ∧ col < 9)) ∧
    (isErr (b.get_vertical_dot row col) = true ↔ ¬(row < 9 ∧ col < 9)) := by
  have hvp : ∀ r c : Nat, Board.is_valid_position r c = true ↔ (r < 9 ∧ c < 9) := by
    intro r c
    rw [Board.is_valid_position]
    simp [GRID_SIZE_eq]
  refine ⟨?_, ?_, ?_, ?_⟩
  · intro hr
    rw [Board.get_horizontal_dot, if_pos ((hvp row 8).mpr ⟨hr, by omega⟩)]
    rw [Board.hDotAt, if_neg (by rw [GRID_SIZE_eq]; omega)]
  · intro hc
    rw [Board.get_vertical_dot, if_pos ((hvp 8 col).mpr ⟨by omega, hc⟩)]
    rw [Board.vDotAt, if_neg (by rw [GRID_SIZE_eq]; omega)]
  · rw [Board.get_horizontal_dot]
    by_cases hv : Board.is_valid_position row col = true
    · rw [if_pos hv, isErr_ok]
      constructor
      · intro h
        exact absurd h Bool.false_ne_true
      · intro hcon
        exact absurd ((hvp row col).mp hv) hcon
    · rw [if_neg hv, isErr_error]
      constructor
      · intro _ hcon
        exact hv ((hvp row col).mpr hcon)
      · intro _
        rfl
  · rw [Board.get_vertical_dot]
    by_cases hv : Board.is_valid_position row col = true
    · rw [if_pos hv, isErr_ok]
      constructor
      · intro h
        exact absurd h Bool.false_ne_true
      · intro hcon
        exact absurd ((hvp row col).mp hv) hcon
    · rw [if_neg hv, isErr_error]
      constructor
      · intro _ hcon
        exact hv ((hvp row col).mpr hcon)
      · intro _
        rfl

/-- Claim C7: on a valid position the domain query raises no error and
returns the computed domain; a non-empty cell gets the empty domain; and
a value is in the domain exactly when the cell is empty, the value is a
digit 1-9, and both the Sudoku check and the dot check pass.  (The
embedding's `get_valid_values` is a pure function of the board, so the
query mutates nothing by construction.) -/
theorem claim_C7 (b : Board) (row col : Nat) (hr : row < 9) (hc : col < 9) :
    get_valid_values_checked b row col = .ok (get_valid_values b row col) ∧
    (b.grid row col ≠ EMPTY_CELL → get_valid_values b row col = []) ∧
    ∀ v, v ∈ get_valid_values b row col ↔
      (b.grid row col = EMPTY_CELL ∧ 1 ≤ v ∧ v ≤ 9 ∧
       is_valid_sudoku_move b row col v = true ∧ is_valid_dot_move b row col v = true) := by
  refine ⟨?_, ?_, fun v => mem_get_valid_values⟩
  · have hpos : Board.is_valid_position row col = true := by
      rw [Board.is_valid_position]
      simp only [GRID_SIZE_eq, Bool.and_eq_true, decide_eq_true_eq]
      exact ⟨hr, hc⟩
    rw [get_valid_values_checked, if_pos hpos]
  · intro hne
    have hemp : b.isEmpty row col = false := by
      rw [Board.isEmpty]
      exact decide_eq_false hne
    rw [get_valid_values, hemp]
    rfl

/-- Claim C7's theorem instantiated at the empty board's cell (0,0). -/
theorem claim_C7_witness :
    get_valid_values_checked Board.empty 0 0 = .ok (get_valid_values Board.empty 0 0) ∧
    (Board.empty.grid 0 0 ≠ EMPTY_CELL → get_valid_values Board.empty 0 0 = []) ∧
    ∀ v, v ∈ get_valid_values Board.empty 0 0 ↔
      (Board.empty.grid 0 0 = EMPTY_CELL ∧ 1 ≤ v ∧ v ≤ 9 ∧
       is_valid_sudoku_move Board.empty 0 0 v = true ∧
       is_valid_dot_move Board.empty 0 0 v = true) :=
  claim_C7 Board.empty 0 0 (by decide) (by decide)

/-- Claim C8's theorem instantiated at a one-line token table whose first
grid row repeats the clue 5. -/
theorem claim_C8_witness :
    isErr (load_puzzle [[5, 5, 0, 0, 0, 0, 0, 0, 0]]) = true :=
  claim_C8 [[5, 5, 0, 0, 0, 0, 0, 0, 0]] 0 0 1 (by decide) (by decide) (by decide)
    (by decide) rfl (by decide)

/-- Claim C9: both search-statistics counters are zero at construction,
and a `solve` call never decreases either one — so across any sequence of
calls on one solver instance each counter is monotonically
non-decreasing. -/
theorem claim_C9 (fc : Bool) (s : KropkiSolver) (b : Board) :
    (KropkiSolver.make fc).assignments = 0 ∧ (KropkiSolver.make fc).backtracks = 0 ∧
    s.assignments ≤ (solve s b).solver.assignments ∧
    s.backtracks ≤ (solve s b).solver.backtracks :=
  ⟨rfl, rfl, (backtrack_counters (emptyCount b) s b).1,
    (backtrack_counters (emptyCount b) s b).2⟩

/-- Claim C10: writing a dot at the grid's outer edge (horizontal at
column 8, vertical at row 8) is a silent no-op — no error, the board
returned unchanged — while validation still happens first: an
out-of-range position, or an invalid dot value at a valid position,
raises the error. -/
theorem claim_C10 (b : Board) (row col d : Nat) :
    (row < 9 → (d = NO_DOT ∨ d = WHITE_DOT ∨ d = BLACK_DOT) →
      b.set_horizontal_dot row 8 d = .ok b) ∧
    (col < 9 → (d = NO_DOT ∨ d = WHITE_DOT ∨ d = BLACK_DOT) →
      b.set_vertical_dot 8 col d = .ok b) ∧
    (¬(row < 9 ∧ col < 9) →
      isErr (b.set_horizontal_dot row col d) = true ∧
      isErr (b.set_vertical_dot row col d) = true) ∧
    (row < 9 ∧ col < 9 → ¬(d = NO_DOT ∨ d = WHITE_DOT ∨ d = BLACK_DOT) →
      isErr (b.set_horizontal_dot row col d) = true ∧
      isErr (b.set_vertical_dot row col d) = true) := by
  have hvp : ∀ r c : Nat, Board.is_valid_position r c = true ↔ (r < 9 ∧ c < 9) := by
    intro r c
    rw [Board.is_valid_position]
    simp [GRID_SIZE_eq]
  refine ⟨?_, ?_, ?_, ?_⟩
  · intro hr hd
    rw [Board.set_horizontal_dot, if_neg (not_not_intro ((hvp row 8).mpr ⟨hr, by omega⟩))]
    rw [if_neg (not_not_intro hd)]
    rw [Board.setHDot, if_neg (by rw [GRID_SIZE_eq]; omega)]
  · intro hc hd
    rw [Board.set_vertical_dot, if_neg (not_not_intro ((hvp 8 col).mpr ⟨by omega, hc⟩))]
    rw [if_neg (not_not_intro hd)]
    rw [Board.setVDot, if_neg (by rw [GRID_SIZE_eq]; omega)]
  · intro hcon
    constructor
    · rw [Board.set_horizontal_dot,
        if_pos (fun hpos => hcon ((hvp row col).mp hpos)), isErr_error]
    · rw [Board.set_vertical_dot,
        if_pos (fun hpos => hcon ((hvp row col).mp hpos)), isErr_error]
  · intro hpos hd
    have hp := not_not_intro ((hvp row col).mpr hpos)
    constructor
    · rw [Board.set_horizontal_dot, if_neg hp, if_pos hd, isErr_error]
    · rw [Board.set_vertical_dot, if_neg hp, if_pos hd, isErr_error]
